import Mathlib

/-!
# vault-ctrl-tool: writing KV secrets to field files and JSON files

A shallow embedding of `cmd/kv.go` (`writeKVOutput`, `dumpJSON`,
`collectSecrets`) with the file system, the log of warnings and the choices of
the Go runtime made explicit.

Modelling conventions.

* A Go map whose entries the program ranges over is an association list; the
  order in which one `range` statement visits the entries is chosen by the
  runtime and is given by the oracles `Env.rangeData` and `Env.rangeFiles`,
  which return a permutation of the entries.
* `interface{}` values held by a secret are the scalars `Value`; the Go value
  `nil` is `Value.null`.
* The file system is a function from paths to files.  Whether `os.OpenFile`
  and a write succeed on a path is given by `Env.openOk` and `Env.writeOk`, as
  properties of the path that do not change during a run; a write that fails
  leaves the file as the open left it, empty.
* `fieldValue` is `nil` both for a field that is missing from the secret and
  for a field whose value is null, as the test `value == nil` of the code is.
* A Go `error` result is an `Option KVError`, `none` standing for `nil`.
-/

namespace VaultCtrl

/-! ## Association lists standing for Go maps -/

namespace Assoc

/-- The value stored under `k`, if any (`m[k]` with the comma-ok form). -/
def get? {β : Type} (k : String) : List (String × β) → Option β
  | [] => none
  | (k', v) :: rest => if k' = k then some v else get? k rest

/-- Whether `k` is a key of the map. -/
def contains {β : Type} (k : String) (m : List (String × β)) : Bool :=
  (get? k m).isSome

/-- The assignment `m[k] = v`: replaces the entry of `k` or adds a new one. -/
def set {β : Type} (k : String) (v : β) : List (String × β) → List (String × β)
  | [] => [(k, v)]
  | (k', v') :: rest => if k' = k then (k, v) :: rest else (k', v') :: set k v rest

/-- The keys of the map, in the order of the list. -/
def keys {β : Type} (m : List (String × β)) : List String := m.map Prod.fst

end Assoc

/-! ## Data model -/

/-- A value held in `api.Secret.Data` (`interface{}`), restricted to scalars. -/
inductive Value where
  | null
  | str (s : String)
  | number (lit : String)
  | bool (b : Bool)
deriving DecidableEq, Repr

/-- The map `api.Secret.Data`. -/
abbrev Data := List (String × Value)

/-- The map `kvSecrets : map[string]api.Secret`, keeping the `Data` of each secret. -/
abbrev KVSecrets := List (String × Data)

/-- Modelled from the spec: one `{name, output path}` pair of a request's
`fields` (the type declaration is not part of the sources read here). -/
structure SecretField where
  Name : String
  Output : String
deriving DecidableEq, Repr

/-- Modelled from the spec: the declaration of `SecretType`, a secret request
with its `key`, `fields`, `output`, `mode`, `missingOk` and `useKeyAsPrefix`
(the type declaration is not part of the sources read here; the field names
are the ones `kv.go` uses). -/
structure SecretType where
  Key : String
  Fields : List SecretField
  Output : String
  Mode : String
  IsMissingOk : Bool
  UseKeyAsPrefix : Bool
deriving DecidableEq, Repr

/-- The expression `kvSecrets[key].Data`: a missing secret has a nil (empty) map. -/
def dataOf (kvSecrets : KVSecrets) (key : String) : Data :=
  (Assoc.get? key kvSecrets).getD []

/-- The expression `kvSecrets[key].Data[name]`: `nil` when the field is missing. -/
def fieldValue (kvSecrets : KVSecrets) (key name : String) : Value :=
  (Assoc.get? name (dataOf kvSecrets key)).getD Value.null

/-- Every `Data` map of `kvSecrets` has pairwise distinct keys, as a Go map has. -/
def WellFormed (kvSecrets : KVSecrets) : Prop :=
  ∀ key, (Assoc.keys (dataOf kvSecrets key)).Nodup

/-- A file: its bytes and the permission bits it was created with. -/
structure File where
  content : String
  mode : Nat
deriving DecidableEq, Repr

/-- The observable state outside the program. -/
structure World where
  /-- the file system -/
  files : String → Option File
  /-- the calls of `os.OpenFile`, as (path, permission), oldest first -/
  opens : List (String × Nat)
  /-- the calls of `makeDirsForFile` -/
  dirs : List String
  /-- the calls of `addFileToScrub` -/
  scrub : List String
  /-- the warnings printed, as (field name, request key, field output) -/
  warnings : List (String × String × String)

/-- The errors of `collectSecrets`, each with the arguments of its message. -/
inductive CollectError where
  /-- "the secret key %q with prefix %q causes there to be a duplicate in the file %q" -/
  | dupPrefixed (k pfx filename : String)
  /-- "the secret key %q causes there to be a duplicate in the file %q" -/
  | dup (k filename : String)
deriving DecidableEq, Repr

/-- The errors of `writeKVOutput` and `dumpJSON`, each with the arguments of its
message (the text of a wrapped operating-system error is left out). -/
inductive KVError where
  /-- "Could not parse file mode %q for key %q: ..." -/
  | parseMode (mode key : String)
  /-- "field %q not found in secret with key %q" -/
  | missingField (field key : String)
  /-- "couldn't open file %q: ..." -/
  | openField (path : String)
  /-- "Failed writing secret to file %q: ..." -/
  | writeField (path : String)
  /-- "Couldn't open file %q: ..." -/
  | openJSON (filename : String)
  /-- "could not output secrets file: ..." wrapping an error of `collectSecrets` -/
  | collect (cause : CollectError)
  /-- "failed to save secrets into %q: ..." -/
  | saveJSON (filename : String)
deriving DecidableEq, Repr

/-- What the program takes from its surroundings: the parser of file modes, the
outcome of opening and writing each path, and the order of each `range` over a
map. -/
structure Env where
  /-- Modelled from the spec: `stringToFileMode` parses the textual `mode` into
  a permission value or fails (its code is not part of the sources read here). -/
  stringToFileMode : String → Option Nat
  /-- whether `os.OpenFile` with `O_CREATE|O_TRUNC|O_WRONLY` succeeds on the path -/
  openOk : String → Bool
  /-- whether writing to the opened file at the path succeeds -/
  writeOk : String → Bool
  /-- the order in which `range kvSecrets[request.Key].Data` visits the entries,
  for the request at the given position of the list collected for the file -/
  rangeData : String → Nat → Data → Data
  /-- the order in which `range secretsToFileMap` visits the entries -/
  rangeFiles : List (String × List SecretType) → List (String × List SecretType)
  rangeData_perm : ∀ filename i d, (rangeData filename i d).Perm d
  rangeFiles_perm : ∀ m, (rangeFiles m).Perm m

/-! ## collectSecrets -/

/-- The loop of lines 115-123: the fields of a request with `UseKeyAsPrefix`. -/
def collectPrefixed (request : SecretType) (filename : String) :
    Data → Data → Except CollectError Data
  | [], data => .ok data
  | (k, v) :: rest, data =>
    let key := request.Key ++ "_" ++ k
    if Assoc.contains key data then
      .error (.dupPrefixed k request.Key filename)
    else
      collectPrefixed request filename rest (Assoc.set key v data)

/-- The loop of lines 125-132: the fields of a request without `UseKeyAsPrefix`. -/
def collectPlain (filename : String) : Data → Data → Except CollectError Data
  | [], data => .ok data
  | (k, v) :: rest, data =>
    if Assoc.contains k data then
      .error (.dup k filename)
    else
      collectPlain filename rest (Assoc.set k v data)

/-- The loop of lines 112-134 over the requests, `i` being the position of the
first of them in the list given to `collectSecrets`. -/
def collectLoop (env : Env) (filename : String) (kvSecrets : KVSecrets) :
    List SecretType → Nat → Data → Except CollectError Data
  | [], _, data => .ok data
  | request :: rest, i, data =>
    let entries := env.rangeData filename i (dataOf kvSecrets request.Key)
    if request.UseKeyAsPrefix then
      match collectPrefixed request filename entries data with
      | .error e => .error e
      | .ok data' => collectLoop env filename kvSecrets rest (i + 1) data'
    else
      match collectPlain filename entries data with
      | .error e => .error e
      | .ok data' => collectLoop env filename kvSecrets rest (i + 1) data'

/-- The function `collectSecrets` of `kv.go`. -/
def collectSecrets (env : Env) (filename : String) (secrets : List SecretType)
    (kvSecrets : KVSecrets) : Except CollectError Data :=
  collectLoop env filename kvSecrets secrets 0 []

/-! ## The file system and the encoders of the Go library -/

/-- The effect of `os.OpenFile(path, O_CREATE|O_TRUNC|O_WRONLY, perm)` when it
succeeds: an existing file is emptied and keeps its mode, a missing file is
created empty with mode `perm`. -/
def openTrunc (path : String) (perm : Nat) (files : String → Option File) :
    String → Option File :=
  fun p =>
    if p = path then
      match files path with
      | some f => some { content := "", mode := f.mode }
      | none => some { content := "", mode := perm }
    else files p

/-- The effect of writing `s` to the file just opened at `path`. -/
def writeContent (path : String) (s : String) (files : String → Option File) :
    String → Option File :=
  fun p =>
    if p = path then (files path).map (fun f => { f with content := s })
    else files p

/-- What `fmt.Fprint` prints for a value. -/
def fprint : Value → String
  | .null => "<nil>"
  | .str s => s
  | .number lit => lit
  | .bool true => "true"
  | .bool false => "false"

/-- A hexadecimal digit. -/
def hexDigit (n : Nat) : Char :=
  if n < 10 then Char.ofNat (48 + n) else Char.ofNat (87 + n)

/-- The escape of one character inside a JSON string, as `encoding/json` writes
it with HTML escaping on. -/
def escapeChar (c : Char) : List Char :=
  if c = Char.ofNat 34 then "\\\"".data
  else if c = Char.ofNat 92 then "\\\\".data
  else if c = Char.ofNat 10 then "\\n".data
  else if c = Char.ofNat 13 then "\\r".data
  else if c = Char.ofNat 9 then "\\t".data
  else if c.toNat < 32 then "\\u00".data ++ [hexDigit (c.toNat / 16), hexDigit (c.toNat % 16)]
  else if c = Char.ofNat 60 then "\\u003c".data
  else if c = Char.ofNat 62 then "\\u003e".data
  else if c = Char.ofNat 38 then "\\u0026".data
  else if c.toNat = 8232 then "\\u2028".data
  else if c.toNat = 8233 then "\\u2029".data
  else [c]

/-- A JSON string literal. -/
def encodeString (s : String) : String :=
  "\"" ++ String.mk (s.data.flatMap escapeChar) ++ "\""

/-- The JSON text of a value. -/
def encodeValue : Value → String
  | .null => "null"
  | .str s => encodeString s
  | .number lit => lit
  | .bool true => "true"
  | .bool false => "false"

/-- Lexicographic comparison of two strings by code point, the order in which
`encoding/json` writes the keys of a map. -/
def charsLe : List Char → List Char → Bool
  | [], _ => true
  | _ :: _, [] => false
  | a :: as, b :: bs =>
    if a.toNat < b.toNat then true
    else if b.toNat < a.toNat then false
    else charsLe as bs

/-- The order of the keys of a JSON object. -/
def keyLe (a b : String) : Bool := charsLe a.data b.data

/-- The entries of a map sorted by key. -/
def sortByKey (data : Data) : Data :=
  data.insertionSort (fun a b => keyLe a.1 b.1 = true)

/-- What `json.NewEncoder(file).Encode(&data)` writes: one flat object with the
keys sorted, then a newline. -/
def encodeJSON (data : Data) : String :=
  "\x7b" ++ ",".intercalate ((sortByKey data).map
    (fun e => encodeString e.1 ++ ":" ++ encodeValue e.2)) ++ "\x7d\n"

/-! ## dumpJSON -/

/-- The body of the loop of `dumpJSON` over the entries of `secretsToFileMap`,
given in the order the `range` statement visits them. -/
def dumpLoop (env : Env) (kvSecrets : KVSecrets) (fileToModeMap : List (String × Nat)) :
    List (String × List SecretType) → World → Option KVError × World
  | [], w => (none, w)
  | (filename, secrets) :: rest, w =>
    let mode := (Assoc.get? filename fileToModeMap).getD 0
    let w1 : World := { w with dirs := w.dirs ++ [filename],
                               opens := w.opens ++ [(filename, mode)] }
    if env.openOk filename then
      let w2 : World := { w1 with files := openTrunc filename mode w1.files,
                                  scrub := w1.scrub ++ [filename] }
      match collectSecrets env filename secrets kvSecrets with
      | .error e => (some (.collect e), w2)
      | .ok data =>
        if data.length > 0 then
          if env.writeOk filename then
            dumpLoop env kvSecrets fileToModeMap rest
              { w2 with files := writeContent filename (encodeJSON data) w2.files }
          else (some (.saveJSON filename), w2)
        else dumpLoop env kvSecrets fileToModeMap rest w2
    else (some (.openJSON filename), w1)

/-- The function `dumpJSON` of `kv.go`. -/
def dumpJSON (env : Env) (kvSecrets : KVSecrets)
    (secretsToFileMap : List (String × List SecretType))
    (fileToModeMap : List (String × Nat)) (w : World) : Option KVError × World :=
  dumpLoop env kvSecrets fileToModeMap (env.rangeFiles secretsToFileMap) w

/-! ## writeKVOutput -/

/-- Lines 41-58: the write of one field whose value is not nil. -/
def writeField (env : Env) (mode : Nat) (field : SecretField) (value : Value)
    (w : World) : Option KVError × World :=
  let w1 : World := { w with dirs := w.dirs ++ [field.Output],
                             opens := w.opens ++ [(field.Output, mode)] }
  if env.openOk field.Output then
    let w2 : World := { w1 with files := openTrunc field.Output mode w1.files,
                                scrub := w1.scrub ++ [field.Output] }
    if env.writeOk field.Output then
      (none, { w2 with files := writeContent field.Output (fprint value) w2.files })
    else (some (.writeField field.Output), w2)
  else (some (.openField field.Output), w1)

/-- Lines 28-60: the loop over the fields of a request. -/
def fieldsLoop (env : Env) (kvSecrets : KVSecrets) (mode : Nat) (request : SecretType) :
    List SecretField → World → Option KVError × World
  | [], w => (none, w)
  | field :: rest, w =>
    let value := fieldValue kvSecrets request.Key field.Name
    if value = Value.null then
      if request.IsMissingOk then
        fieldsLoop env kvSecrets mode request rest
          { w with warnings := w.warnings ++ [(field.Name, request.Key, field.Output)] }
      else (some (.missingField field.Name request.Key), w)
    else
      match writeField env mode field value w with
      | (some e, w') => (some e, w')
      | (none, w') => fieldsLoop env kvSecrets mode request rest w'

/-- The two maps `writeKVOutput` builds for `dumpJSON`. -/
structure Maps where
  secretsToFileMap : List (String × List SecretType)
  fileToModeMap : List (String × Nat)

/-- Lines 63-69: the request is appended to the list of its output file and the
mode of the file is recorded unless one is recorded already. -/
def record (request : SecretType) (mode : Nat) (m : Maps) : Maps :=
  if request.Output ≠ "" then
    { secretsToFileMap :=
        Assoc.set request.Output
          ((Assoc.get? request.Output m.secretsToFileMap).getD [] ++ [request])
          m.secretsToFileMap,
      fileToModeMap :=
        if Assoc.contains request.Output m.fileToModeMap then m.fileToModeMap
        else Assoc.set request.Output mode m.fileToModeMap }
  else m

/-- Lines 18-70: the loop over `config.Secrets`. -/
def requestsLoop (env : Env) (kvSecrets : KVSecrets) :
    List SecretType → Maps → World → Except KVError Maps × World
  | [], m, w => (.ok m, w)
  | request :: rest, m, w =>
    match env.stringToFileMode request.Mode with
    | none => (.error (.parseMode request.Mode request.Key), w)
    | some mode =>
      match fieldsLoop env kvSecrets mode request request.Fields w with
      | (some e, w') => (.error e, w')
      | (none, w') => requestsLoop env kvSecrets rest (record request mode m) w'

/-- The function `writeKVOutput` of `kv.go`; `secrets` is `config.Secrets`. -/
def writeKVOutput (env : Env) (secrets : List SecretType) (kvSecrets : KVSecrets)
    (w : World) : Option KVError × World :=
  match requestsLoop env kvSecrets secrets ⟨[], []⟩ w with
  | (.error e, w') => (some e, w')
  | (.ok m, w') => dumpJSON env kvSecrets m.secretsToFileMap m.fileToModeMap w'

/-! ## Sample surroundings, used to evaluate the program on concrete inputs -/

/-- A parser of octal permission strings such as "0600". -/
def octalMode (s : String) : Option Nat :=
  if s.data = [] then none
  else s.data.foldl (fun acc c =>
    match acc with
    | none => none
    | some n => if 48 ≤ c.toNat ∧ c.toNat < 56 then some (n * 8 + (c.toNat - 48)) else none)
    (some 0)

/-- Surroundings in which every open and write succeeds and every `range`
visits the entries in the order of the list. -/
def env0 : Env where
  stringToFileMode := octalMode
  openOk := fun _ => true
  writeOk := fun _ => true
  rangeData := fun _ _ d => d
  rangeFiles := fun m => m
  rangeData_perm := fun _ _ _ => List.Perm.refl _
  rangeFiles_perm := fun _ => List.Perm.refl _

/-- The same surroundings, every `range` visiting the entries in reverse. -/
def env1 : Env where
  stringToFileMode := octalMode
  openOk := fun _ => true
  writeOk := fun _ => true
  rangeData := fun _ _ d => d.reverse
  rangeFiles := fun m => m.reverse
  rangeData_perm := fun _ _ d => List.reverse_perm d
  rangeFiles_perm := fun m => List.reverse_perm m

/-- An empty destination: no file and nothing logged. -/
def world0 : World where
  files := fun _ => none
  opens := []
  dirs := []
  scrub := []
  warnings := []

/-! ## Definitions used to state the properties -/

/-- The key under which `collectSecrets` stores field `k` of a request. -/
def outputKey (request : SecretType) (k : String) : String :=
  if request.UseKeyAsPrefix then request.Key ++ "_" ++ k else k

/-- The entry a request contributes for one entry of its secret. -/
def contribution (request : SecretType) (e : String × Value) : String × Value :=
  (outputKey request e.1, e.2)

/-- The entries contributed by a list of requests, each secret taken in the
order of `kvSecrets`. -/
def allContributions (secrets : List SecretType) (kvSecrets : KVSecrets) : Data :=
  secrets.flatMap (fun r => (dataOf kvSecrets r.Key).map (contribution r))

/-- The entries contributed by a list of requests in the order in which
`collectSecrets` meets them, `i` being the position of the first request. -/
def contributions (env : Env) (filename : String) (kvSecrets : KVSecrets) :
    List SecretType → Nat → Data
  | [], _ => []
  | r :: rest, i =>
    (env.rangeData filename i (dataOf kvSecrets r.Key)).map (contribution r)
      ++ contributions env filename kvSecrets rest (i + 1)

/-- Two contributions collide: two different pairs of a position in the list
and a field of the secret of the request at that position have the same
output key. -/
def Collide (secrets : List SecretType) (kvSecrets : KVSecrets) : Prop :=
  ∃ (i j : Fin secrets.length) (k k' : String),
    k ∈ Assoc.keys (dataOf kvSecrets (secrets.get i).Key) ∧
    k' ∈ Assoc.keys (dataOf kvSecrets (secrets.get j).Key) ∧
    (i ≠ j ∨ k ≠ k') ∧
    outputKey (secrets.get i) k = outputKey (secrets.get j) k'

/-- The file an error of `collectSecrets` names. -/
def CollectError.filename : CollectError → String
  | .dupPrefixed _ _ f => f
  | .dup _ f => f

/-! ## Sample inputs -/

/-- The request of the concrete scenario of the specification. -/
def reqApp : SecretType :=
  { Key := "app/secret", Fields := [{ Name := "password", Output := "/tmp/pw" }],
    Output := "/tmp/all.json", Mode := "0600", IsMissingOk := false, UseKeyAsPrefix := false }

/-- A request that prefixes its output keys with its key. -/
def reqDb : SecretType :=
  { Key := "db", Fields := [], Output := "/tmp/all.json", Mode := "0640",
    IsMissingOk := false, UseKeyAsPrefix := true }

/-- A second request without prefix, with a field `password` too. -/
def reqOther : SecretType :=
  { Key := "other", Fields := [], Output := "/tmp/all.json", Mode := "0644",
    IsMissingOk := false, UseKeyAsPrefix := false }

/-- The fetched secrets of the sample requests. -/
def kvSample : KVSecrets :=
  [("app/secret", [("password", .str "s3cr3t")]),
   ("db", [("password", .str "hunter2"), ("user", .str "admin")]),
   ("other", [("password", .str "x"), ("port", .number "5432")])]

/-- The effect on the file system of one turn of the loop of `dumpJSON` that
ends without error: the file is emptied or created, and the JSON text of the
contributions is written to it unless there is none. -/
def dumpStep (kvSecrets : KVSecrets) (fileToModeMap : List (String × Nat))
    (files : String → Option File) (e : String × List SecretType) : String → Option File :=
  if allContributions e.2 kvSecrets = [] then
    openTrunc e.1 ((Assoc.get? e.1 fileToModeMap).getD 0) files
  else
    writeContent e.1 (encodeJSON (allContributions e.2 kvSecrets))
      (openTrunc e.1 ((Assoc.get? e.1 fileToModeMap).getD 0) files)

/-- One turn of the loop of `dumpJSON` meets no error: the file opens, no two
contributions have the same output key, and the write succeeds if there is
anything to write. -/
def DumpGood (env : Env) (kvSecrets : KVSecrets) (e : String × List SecretType) : Prop :=
  env.openOk e.1 = true ∧ (Assoc.keys (allContributions e.2 kvSecrets)).Nodup ∧
    (allContributions e.2 kvSecrets ≠ [] → env.writeOk e.1 = true)

/-- A request whose fetched secret has no field. -/
def reqEmptyA : SecretType :=
  { Key := "a", Fields := [], Output := "/tmp/all.json", Mode := "0600",
    IsMissingOk := false, UseKeyAsPrefix := false }

/-- Another request whose fetched secret has no field. -/
def reqEmptyB : SecretType :=
  { Key := "b", Fields := [], Output := "/tmp/all.json", Mode := "0600",
    IsMissingOk := false, UseKeyAsPrefix := false }

/-- Two fetched secrets without any field. -/
def kvEmpty : KVSecrets := [("a", []), ("b", [])]

/-- A request without prefix whose secret has the fields `user` and `port`. -/
def reqPlain : SecretType :=
  { Key := "plain", Fields := [], Output := "/tmp/all.json", Mode := "0644",
    IsMissingOk := false, UseKeyAsPrefix := false }

/-- Fetched secrets with disjoint field names for `app/secret` and `plain`, and
a field `password` again for `other`. -/
def kvPlain : KVSecrets :=
  [("app/secret", [("password", .str "s3cr3t")]),
   ("plain", [("user", .str "admin"), ("port", .number "5432")]),
   ("other", [("password", .str "x")])]

/-- The requests of a list that name `f` as their JSON output, in the order of
the list. -/
def group (secrets : List SecretType) (f : String) : List SecretType :=
  secrets.filter (fun r => r.Output = f)

/-- The mode of the first request of a list that names `f` as its JSON output. -/
def firstMode (env : Env) (secrets : List SecretType) (f : String) : Option Nat :=
  (secrets.find? (fun r => r.Output = f)).bind (fun r => env.stringToFileMode r.Mode)

/-- The state of the two maps of `writeKVOutput` once the requests `done` have
been processed: each file named by one of them is mapped to the requests that
name it, in order, and to the mode of the first of them. -/
structure MapsInv (env : Env) (done : List SecretType) (m : Maps) : Prop where
  nodup : (Assoc.keys m.secretsToFileMap).Nodup
  stf : ∀ f, Assoc.get? f m.secretsToFileMap =
    if f ≠ "" ∧ group done f ≠ [] then some (group done f) else none
  ftm : ∀ f, Assoc.get? f m.fileToModeMap = if f = "" then none else firstMode env done f
  modes : ∀ r ∈ done, ∃ mode, env.stringToFileMode r.Mode = some mode

/-- A request whose two fields are written to the same path. -/
def reqTwoFields : SecretType :=
  { Key := "pair", Fields := [{ Name := "first", Output := "/tmp/x" },
                              { Name := "second", Output := "/tmp/x" }],
    Output := "", Mode := "0600", IsMissingOk := false, UseKeyAsPrefix := false }

/-- The fetched secret of `reqTwoFields`. -/
def kvPair : KVSecrets := [("pair", [("first", .str "1"), ("second", .str "2")])]

/-- A request with `IsMissingOk` false, one field that is fetched and two that
are not. -/
def reqMissing : SecretType :=
  { Key := "app/secret", Fields := [{ Name := "password", Output := "/tmp/pw" },
                                    { Name := "user", Output := "/tmp/user" },
                                    { Name := "token", Output := "/tmp/token" }],
    Output := "", Mode := "0600", IsMissingOk := false, UseKeyAsPrefix := false }

/-- The request `reqMissing` with `IsMissingOk` true. -/
def reqMissingOk : SecretType := { reqMissing with IsMissingOk := true }

/-- A request whose mode does not parse. -/
def reqBadMode : SecretType :=
  { Key := "db", Fields := [{ Name := "user", Output := "/tmp/dbuser" }],
    Output := "/tmp/db.json", Mode := "rw-------", IsMissingOk := false,
    UseKeyAsPrefix := false }

/-- A request that is alone in naming `/tmp/db.json` as its JSON output. -/
def reqSolo : SecretType :=
  { Key := "db", Fields := [], Output := "/tmp/db.json", Mode := "0640",
    IsMissingOk := false, UseKeyAsPrefix := false }

/-! # Theorems -/

/-! ## Facts about association lists -/

namespace Assoc

theorem contains_iff {β : Type} (k : String) (m : List (String × β)) :
    contains k m = true ↔ k ∈ keys m := by
  induction m with
  | nil => simp [contains, get?, keys]
  | cons e rest ih =>
    obtain ⟨k', v⟩ := e
    by_cases h : k' = k
    · simp [contains, get?, keys, h]
    · have h' : ¬ k = k' := fun e => h e.symm
      simpa [contains, get?, keys, h, h'] using ih

theorem contains_eq_false_iff {β : Type} (k : String) (m : List (String × β)) :
    contains k m = false ↔ k ∉ keys m := by
  rw [← contains_iff]; simp

theorem set_of_not_mem {β : Type} (k : String) (v : β) (m : List (String × β))
    (h : k ∉ keys m) : set k v m = m ++ [(k, v)] := by
  induction m with
  | nil => rfl
  | cons e rest ih =>
    obtain ⟨k', v'⟩ := e
    simp only [keys, List.map_cons, List.mem_cons, not_or] at h
    have h' : ¬ k' = k := fun e => h.1 e.symm
    simp only [set, h', if_false, List.cons_append]
    rw [ih h.2]

theorem get?_set {β : Type} (k : String) (v : β) (m : List (String × β)) (k' : String) :
    get? k' (set k v m) = if k = k' then some v else get? k' m := by
  induction m with
  | nil => simp [set, get?]
  | cons e rest ih =>
    obtain ⟨k₀, v₀⟩ := e
    by_cases h : k₀ = k
    · subst h
      by_cases h2 : k₀ = k' <;> simp [set, get?, h2]
    · by_cases h2 : k₀ = k'
      · subst h2
        have : ¬ k = k₀ := fun e => h e.symm
        simp [set, get?, h, this]
      · simp [set, get?, h, h2, ih]

theorem keys_set {β : Type} (k : String) (v : β) (m : List (String × β)) :
    keys (set k v m) = if k ∈ keys m then keys m else keys m ++ [k] := by
  induction m with
  | nil => simp [set, keys]
  | cons e rest ih =>
    obtain ⟨k₀, v₀⟩ := e
    by_cases h : k₀ = k
    · subst h
      simp [set, keys]
    · have h' : ¬ k = k₀ := fun e => h e.symm
      simp only [keys] at ih
      by_cases h2 : k ∈ List.map Prod.fst rest
      · simp [set, keys, h, h', h2, ih]
      · simp [set, keys, h, h', h2, ih]

theorem nodup_keys_set {β : Type} (k : String) (v : β) (m : List (String × β))
    (h : (keys m).Nodup) : (keys (set k v m)).Nodup := by
  rw [keys_set]
  by_cases h2 : k ∈ keys m
  · simpa [h2] using h
  · simp only [h2, if_false]
    rw [List.nodup_append]
    refine ⟨h, by simp, ?_⟩
    intro a ha hb
    simp at hb
    exact h2 (hb ▸ ha)

theorem get?_eq_none_iff {β : Type} (k : String) (m : List (String × β)) :
    get? k m = none ↔ k ∉ keys m := by
  rw [← contains_eq_false_iff, contains]
  cases get? k m <;> simp

theorem get?_of_mem {β : Type} {k : String} {v : β} {m : List (String × β)}
    (hnd : (keys m).Nodup) (h : (k, v) ∈ m) : get? k m = some v := by
  induction m with
  | nil => simp at h
  | cons e rest ih =>
    obtain ⟨k₀, v₀⟩ := e
    simp only [keys, List.map_cons, List.nodup_cons] at hnd
    rcases List.mem_cons.1 h with h1 | h1
    · injection h1 with h1 h2
      subst h1; subst h2
      simp [get?]
    · have hk : k ∈ List.map Prod.fst rest := List.mem_map.2 ⟨(k, v), h1, rfl⟩
      have : ¬ k₀ = k := fun e => hnd.1 (e ▸ hk)
      simp only [get?, this, if_false]
      exact ih hnd.2 h1

theorem mem_of_get? {β : Type} {k : String} {v : β} {m : List (String × β)}
    (h : get? k m = some v) : (k, v) ∈ m := by
  induction m with
  | nil => simp [get?] at h
  | cons e rest ih =>
    obtain ⟨k₀, v₀⟩ := e
    by_cases h0 : k₀ = k
    · simp only [get?, h0, if_true, Option.some.injEq] at h
      subst h0; subst h
      exact List.mem_cons_self _ _
    · simp only [get?, h0, if_false] at h
      exact List.mem_cons_of_mem _ (ih h)

theorem get?_perm {β : Type} {m m' : List (String × β)} (hp : m.Perm m')
    (hnd : (keys m).Nodup) (k : String) : get? k m = get? k m' := by
  have hnd' : (keys m').Nodup := (hp.map Prod.fst).nodup_iff.1 hnd
  cases h : get? k m with
  | none =>
    have h1 := (get?_eq_none_iff k m).1 h
    have h2 : k ∉ keys m' := fun hk => h1 ((hp.map Prod.fst).mem_iff.2 hk)
    exact ((get?_eq_none_iff k m').2 h2).symm
  | some v =>
    have := hp.mem_iff.1 (mem_of_get? h)
    exact (get?_of_mem hnd' this).symm

end Assoc

/-! ## collectSecrets: the returned map is the list of contributions -/

theorem keys_append {β : Type} (a b : List (String × β)) :
    Assoc.keys (a ++ b) = Assoc.keys a ++ Assoc.keys b := by
  simp [Assoc.keys]

theorem collectPlain_ok_iff (filename : String) (entries data d : Data)
    (hnd : (Assoc.keys data).Nodup) :
    collectPlain filename entries data = .ok d ↔
      (Assoc.keys (data ++ entries)).Nodup ∧ d = data ++ entries := by
  induction entries generalizing data with
  | nil =>
    simp only [collectPlain, List.append_nil, Except.ok.injEq]
    constructor
    · intro h; exact ⟨hnd, h.symm⟩
    · intro h; exact h.2.symm
  | cons e rest ih =>
    obtain ⟨k, v⟩ := e
    by_cases hc : Assoc.contains k data = true
    · have hk := (Assoc.contains_iff k data).1 hc
      simp only [collectPlain, hc, if_true]
      constructor
      · intro h; cases h
      rintro ⟨hn, -⟩
      exfalso
      rw [keys_append, List.nodup_append] at hn
      exact hn.2.2 hk (by simp [Assoc.keys])
    · have hk : k ∉ Assoc.keys data := fun h => hc ((Assoc.contains_iff k data).2 h)
      simp only [collectPlain, hc]
      rw [Assoc.set_of_not_mem k v data hk]
      have hnd' : (Assoc.keys (data ++ [(k, v)])).Nodup := by
        rw [keys_append, List.nodup_append]
        refine ⟨hnd, by simp [Assoc.keys], ?_⟩
        intro a ha hb
        simp [Assoc.keys] at hb
        exact hk (hb ▸ ha)
      have := ih (data ++ [(k, v)]) hnd'
      simpa [List.append_assoc] using this

theorem collectPrefixed_ok_iff (request : SecretType) (filename : String)
    (entries data d : Data) (hnd : (Assoc.keys data).Nodup) :
    collectPrefixed request filename entries data = .ok d ↔
      (Assoc.keys (data ++ entries.map (fun e => (request.Key ++ "_" ++ e.1, e.2)))).Nodup ∧
        d = data ++ entries.map (fun e => (request.Key ++ "_" ++ e.1, e.2)) := by
  induction entries generalizing data with
  | nil =>
    simp only [collectPrefixed, List.map_nil, List.append_nil, Except.ok.injEq]
    constructor
    · intro h; exact ⟨hnd, h.symm⟩
    · intro h; exact h.2.symm
  | cons e rest ih =>
    obtain ⟨k, v⟩ := e
    by_cases hc : Assoc.contains (request.Key ++ "_" ++ k) data = true
    · have hk := (Assoc.contains_iff _ data).1 hc
      simp only [collectPrefixed, hc, if_true]
      constructor
      · intro h; cases h
      rintro ⟨hn, -⟩
      exfalso
      rw [keys_append, List.nodup_append] at hn
      exact hn.2.2 hk (by simp [Assoc.keys])
    · have hk : (request.Key ++ "_" ++ k) ∉ Assoc.keys data :=
        fun h => hc ((Assoc.contains_iff _ data).2 h)
      simp only [collectPrefixed, hc]
      rw [Assoc.set_of_not_mem _ v data hk]
      have hnd' : (Assoc.keys (data ++ [(request.Key ++ "_" ++ k, v)])).Nodup := by
        rw [keys_append, List.nodup_append]
        refine ⟨hnd, by simp [Assoc.keys], ?_⟩
        intro a ha hb
        simp [Assoc.keys] at hb
        exact hk (hb ▸ ha)
      have := ih (data ++ [(request.Key ++ "_" ++ k, v)]) hnd'
      simpa [List.append_assoc] using this

theorem nodup_keys_left {β : Type} {a b : List (String × β)}
    (h : (Assoc.keys (a ++ b)).Nodup) : (Assoc.keys a).Nodup := by
  rw [keys_append] at h
  exact (List.nodup_append.1 h).1

theorem collectLoop_ok_iff (env : Env) (filename : String) (kvSecrets : KVSecrets)
    (secrets : List SecretType) (i : Nat) (data d : Data) (hnd : (Assoc.keys data).Nodup) :
    collectLoop env filename kvSecrets secrets i data = .ok d ↔
      (Assoc.keys (data ++ contributions env filename kvSecrets secrets i)).Nodup ∧
        d = data ++ contributions env filename kvSecrets secrets i := by
  induction secrets generalizing i data with
  | nil =>
    simp only [collectLoop, contributions, List.append_nil, Except.ok.injEq]
    constructor
    · intro h; exact ⟨hnd, h.symm⟩
    · intro h; exact h.2.symm
  | cons r rest ih =>
    simp only [collectLoop, contributions]
    by_cases hp : r.UseKeyAsPrefix = true
    · have hmap : (env.rangeData filename i (dataOf kvSecrets r.Key)).map (contribution r)
          = (env.rangeData filename i (dataOf kvSecrets r.Key)).map
              (fun e => (r.Key ++ "_" ++ e.1, e.2)) := by
        apply List.map_congr_left
        intro e _
        simp [contribution, outputKey, hp]
      simp only [hp, if_true]
      cases hres : collectPrefixed r filename
          (env.rangeData filename i (dataOf kvSecrets r.Key)) data with
      | error e =>
        constructor
        · intro h; cases h
        rintro ⟨hn, -⟩
        exfalso
        rw [← List.append_assoc] at hn
        have h1 := nodup_keys_left hn
        rw [hmap] at h1
        have := (collectPrefixed_ok_iff r filename _ data _ hnd).2 ⟨h1, rfl⟩
        rw [hres] at this
        cases this
      | ok data' =>
        have h1 := (collectPrefixed_ok_iff r filename _ data data' hnd).1 hres
        rw [← hmap] at h1
        simp only
        rw [ih (i + 1) data' (h1.2 ▸ h1.1), h1.2, List.append_assoc]
    · have hp' : r.UseKeyAsPrefix = false := by simpa using hp
      have hmap : (env.rangeData filename i (dataOf kvSecrets r.Key)).map (contribution r)
          = env.rangeData filename i (dataOf kvSecrets r.Key) := by
        conv_rhs => rw [← List.map_id (env.rangeData filename i (dataOf kvSecrets r.Key))]
        apply List.map_congr_left
        intro e _
        simp [contribution, outputKey, hp']
      simp only [hp', Bool.false_eq_true, if_false]
      cases hres : collectPlain filename
          (env.rangeData filename i (dataOf kvSecrets r.Key)) data with
      | error e =>
        constructor
        · intro h; cases h
        rintro ⟨hn, -⟩
        exfalso
        rw [← List.append_assoc] at hn
        have h1 := nodup_keys_left hn
        rw [hmap] at h1
        have := (collectPlain_ok_iff filename _ data _ hnd).2 ⟨h1, rfl⟩
        rw [hres] at this
        cases this
      | ok data' =>
        have h1 := (collectPlain_ok_iff filename _ data data' hnd).1 hres
        rw [← hmap] at h1
        simp only
        rw [ih (i + 1) data' (h1.2 ▸ h1.1), h1.2, List.append_assoc]

theorem collectSecrets_ok_iff (env : Env) (filename : String) (secrets : List SecretType)
    (kvSecrets : KVSecrets) (d : Data) :
    collectSecrets env filename secrets kvSecrets = .ok d ↔
      (Assoc.keys (contributions env filename kvSecrets secrets 0)).Nodup ∧
        d = contributions env filename kvSecrets secrets 0 := by
  have := collectLoop_ok_iff env filename kvSecrets secrets 0 [] d (by simp [Assoc.keys])
  simpa [collectSecrets] using this

theorem contributions_perm (env : Env) (filename : String) (kvSecrets : KVSecrets)
    (secrets : List SecretType) (i : Nat) :
    (contributions env filename kvSecrets secrets i).Perm (allContributions secrets kvSecrets) := by
  induction secrets generalizing i with
  | nil => simp [contributions, allContributions]
  | cons r rest ih =>
    simp only [contributions, allContributions, List.flatMap_cons]
    exact List.Perm.append ((env.rangeData_perm filename i _).map _) (ih (i + 1))

theorem contributions_append (env : Env) (filename : String) (kvSecrets : KVSecrets)
    (a b : List SecretType) (i : Nat) :
    contributions env filename kvSecrets (a ++ b) i =
      contributions env filename kvSecrets a i ++
        contributions env filename kvSecrets b (i + a.length) := by
  induction a generalizing i with
  | nil => simp [contributions]
  | cons r rest ih =>
    have h : i + 1 + rest.length = i + (rest.length + 1) := by omega
    show _ ++ contributions env filename kvSecrets (rest ++ b) (i + 1) = _
    rw [ih (i + 1), h]
    simp only [contributions, List.append_assoc, List.length_cons]

theorem collectSecrets_isOk_iff (env : Env) (filename : String) (secrets : List SecretType)
    (kvSecrets : KVSecrets) :
    (∃ d, collectSecrets env filename secrets kvSecrets = .ok d) ↔
      (Assoc.keys (allContributions secrets kvSecrets)).Nodup := by
  have hp := (contributions_perm env filename kvSecrets secrets 0).map Prod.fst
  constructor
  · rintro ⟨d, hd⟩
    exact hp.nodup_iff.1 ((collectSecrets_ok_iff _ _ _ _ _).1 hd).1
  · intro h
    exact ⟨_, (collectSecrets_ok_iff _ _ _ _ _).2 ⟨hp.nodup_iff.2 h, rfl⟩⟩

theorem collectSecrets_error_iff (env : Env) (filename : String) (secrets : List SecretType)
    (kvSecrets : KVSecrets) :
    (∃ e, collectSecrets env filename secrets kvSecrets = .error e) ↔
      ¬ (Assoc.keys (allContributions secrets kvSecrets)).Nodup := by
  rw [← collectSecrets_isOk_iff env filename]
  cases collectSecrets env filename secrets kvSecrets <;> simp

/-! ## Collisions of output keys -/

theorem string_append_left_cancel {a b c : String} (h : a ++ b = a ++ c) : b = c := by
  have h1 := congrArg String.data h
  simp only [String.data_append] at h1
  exact String.ext (List.append_cancel_left h1)

theorem outputKey_injective (r : SecretType) : Function.Injective (outputKey r) := by
  intro k k' h
  by_cases hp : r.UseKeyAsPrefix = true
  · simp only [outputKey, hp, if_true] at h
    exact string_append_left_cancel h
  · simpa [outputKey, hp] using h

/-- The keys a request contributes. -/
theorem keys_allContributions (secrets : List SecretType) (kvSecrets : KVSecrets) :
    Assoc.keys (allContributions secrets kvSecrets) =
      secrets.flatMap (fun r => (Assoc.keys (dataOf kvSecrets r.Key)).map (outputKey r)) := by
  simp only [Assoc.keys, allContributions, List.map_flatMap, List.map_map]
  rfl

theorem nodup_allContributions_iff (secrets : List SecretType) (kvSecrets : KVSecrets)
    (hwf : WellFormed kvSecrets) :
    (Assoc.keys (allContributions secrets kvSecrets)).Nodup ↔ ¬ Collide secrets kvSecrets := by
  rw [keys_allContributions, List.nodup_flatMap]
  constructor
  · rintro ⟨-, hpw⟩ ⟨i, j, k, k', hk, hk', hne, heq⟩
    have hij : i ≠ j := by
      rcases hne with h | h
      · exact h
      · intro hij
        subst hij
        exact h (outputKey_injective _ heq)
    rw [List.pairwise_iff_get] at hpw
    rcases lt_or_gt_of_ne hij with hlt | hgt
    · have hd := hpw i j hlt
      exact hd (List.mem_map.2 ⟨k, hk, rfl⟩) (List.mem_map.2 ⟨k', hk', heq.symm⟩)
    · have hd := hpw j i hgt
      exact hd (List.mem_map.2 ⟨k', hk', rfl⟩) (List.mem_map.2 ⟨k, hk, heq⟩)
  · intro hnc
    refine ⟨fun r _ => (hwf r.Key).map (outputKey_injective r), ?_⟩
    rw [List.pairwise_iff_get]
    intro i j hij
    show List.Disjoint _ _
    intro x hx hx'
    obtain ⟨k, hk, rfl⟩ := List.mem_map.1 hx
    obtain ⟨k', hk', heq⟩ := List.mem_map.1 hx'
    exact hnc ⟨i, j, k, k', hk, hk', Or.inl (ne_of_lt hij), heq.symm⟩

theorem wellFormed_of_forall (kvSecrets : KVSecrets)
    (h : ∀ e ∈ kvSecrets, (Assoc.keys e.2).Nodup) : WellFormed kvSecrets := by
  intro key
  unfold dataOf
  cases hg : Assoc.get? key kvSecrets with
  | none => simp [Assoc.keys]
  | some d => exact h _ (Assoc.mem_of_get? hg)

theorem get?_contribution_of_ok (env : Env) (filename : String) (secrets : List SecretType)
    (kvSecrets : KVSecrets) (d : Data)
    (hok : collectSecrets env filename secrets kvSecrets = .ok d)
    (r : SecretType) (hr : r ∈ secrets) (k : String) (v : Value)
    (hkv : (k, v) ∈ dataOf kvSecrets r.Key) :
    Assoc.get? (outputKey r k) d = some v := by
  obtain ⟨hnd, rfl⟩ := (collectSecrets_ok_iff _ _ _ _ _).1 hok
  apply Assoc.get?_of_mem hnd
  apply (contributions_perm env filename kvSecrets secrets 0).mem_iff.2
  simp only [allContributions, List.mem_flatMap, List.mem_map]
  exact ⟨r, hr, (k, v), hkv, rfl⟩

/-- C2: `collectSecrets` returns an error exactly when two contributions (a
request at a position of the list with a field of its secret) have the same
output key, and when it succeeds every contribution's output key is in the
returned map with that contribution's value. -/
theorem C2_collectSecrets_error_iff_collide (env : Env) (filename : String)
    (secrets : List SecretType) (kvSecrets : KVSecrets) (hwf : WellFormed kvSecrets) :
    ((∃ e, collectSecrets env filename secrets kvSecrets = .error e) ↔
        Collide secrets kvSecrets) ∧
    (∀ d, collectSecrets env filename secrets kvSecrets = .ok d →
      ∀ r ∈ secrets, ∀ k v, (k, v) ∈ dataOf kvSecrets r.Key →
        Assoc.get? (outputKey r k) d = some v) := by
  refine ⟨?_, fun d hok r hr k v hkv => get?_contribution_of_ok env filename secrets kvSecrets d hok r hr k v hkv⟩
  rw [collectSecrets_error_iff, nodup_allContributions_iff secrets kvSecrets hwf, not_not]

/-- Three requests of which the first and the third collide on `password`, the entries visited in reverse. -/
theorem C2_witness :
    WellFormed kvSample ∧
    (((∃ e, collectSecrets env1 "/tmp/all.json" [reqApp, reqDb, reqOther] kvSample = .error e) ↔
        Collide [reqApp, reqDb, reqOther] kvSample) ∧
    (∀ d, collectSecrets env1 "/tmp/all.json" [reqApp, reqDb, reqOther] kvSample = .ok d →
      ∀ r ∈ [reqApp, reqDb, reqOther], ∀ k v, (k, v) ∈ dataOf kvSample r.Key →
        Assoc.get? (outputKey r k) d = some v)) :=
  ⟨wellFormed_of_forall kvSample (by decide),
   C2_collectSecrets_error_iff_collide env1 "/tmp/all.json" [reqApp, reqDb, reqOther] kvSample
     (wellFormed_of_forall kvSample (by decide))⟩

/-- C6: for a request with `UseKeyAsPrefix` at any position of the list given to
a successful `collectSecrets`, every field `k` with value `v` of its secret is
in the returned map under `request.Key + "_" + k`, and the entries the request
contributes are exactly these, one per field: the returned map is the entries
of the requests before it, then one entry `(request.Key + "_" + k, v)` per field,
then the entries of the requests after it. -/
theorem C6_prefixed_key (env : Env) (filename : String) (kvSecrets : KVSecrets)
    (pre post : List SecretType) (r : SecretType) (d : Data)
    (hp : r.UseKeyAsPrefix = true)
    (hok : collectSecrets env filename (pre ++ r :: post) kvSecrets = .ok d) :
    (∀ k v, (k, v) ∈ dataOf kvSecrets r.Key →
      Assoc.get? (r.Key ++ "_" ++ k) d = some v) ∧
    d = contributions env filename kvSecrets pre 0
        ++ (env.rangeData filename pre.length (dataOf kvSecrets r.Key)).map
            (fun e => (r.Key ++ "_" ++ e.1, e.2))
        ++ contributions env filename kvSecrets post (pre.length + 1) := by
  constructor
  · intro k v hkv
    have h := get?_contribution_of_ok env filename _ kvSecrets d hok r (by simp) k v hkv
    simpa [outputKey, hp] using h
  · obtain ⟨-, rfl⟩ := (collectSecrets_ok_iff _ _ _ _ _).1 hok
    rw [contributions_append]
    simp only [contributions, Nat.zero_add, List.append_assoc]
    congr 2
    apply List.map_congr_left
    intro e _
    simp [contribution, outputKey, hp]

/-- Key `db` and field `password` give the output key `db_password`. -/
theorem C6_witness :
    reqDb.UseKeyAsPrefix = true ∧
    collectSecrets env0 "/tmp/all.json" ([reqApp] ++ reqDb :: []) kvSample =
      .ok [("password", .str "s3cr3t"), ("db_password", .str "hunter2"),
           ("db_user", .str "admin")] ∧
    ((∀ k v, (k, v) ∈ dataOf kvSample reqDb.Key →
      Assoc.get? (reqDb.Key ++ "_" ++ k)
        [("password", .str "s3cr3t"), ("db_password", .str "hunter2"),
           ("db_user", .str "admin")] = some v) ∧
    [("password", .str "s3cr3t"), ("db_password", .str "hunter2"), ("db_user", .str "admin")]
      = contributions env0 "/tmp/all.json" kvSample [reqApp] 0
        ++ (env0.rangeData "/tmp/all.json" [reqApp].length (dataOf kvSample reqDb.Key)).map
            (fun e => (reqDb.Key ++ "_" ++ e.1, e.2))
        ++ contributions env0 "/tmp/all.json" kvSample [] ([reqApp].length + 1)) :=
  ⟨rfl, rfl, C6_prefixed_key env0 "/tmp/all.json" kvSample [reqApp] [] reqDb _ rfl rfl⟩

/-! ## The JSON text of a map does not depend on the order of its entries -/

theorem char_toNat_inj {a b : Char} (h : a.toNat = b.toNat) : a = b := by
  apply Char.ext
  apply UInt32.ext
  exact h

theorem charsLe_total (a b : List Char) : charsLe a b = true ∨ charsLe b a = true := by
  induction a generalizing b with
  | nil => left; simp [charsLe]
  | cons x xs ih =>
    cases b with
    | nil => right; simp [charsLe]
    | cons y ys =>
      simp only [charsLe]
      by_cases h1 : x.toNat < y.toNat
      · left; simp [h1]
      · by_cases h2 : y.toNat < x.toNat
        · right; simp [h2]
        · simp only [h1, h2, if_false]
          exact ih ys

theorem charsLe_trans (a b c : List Char) (h1 : charsLe a b = true) (h2 : charsLe b c = true) :
    charsLe a c = true := by
  induction a generalizing b c with
  | nil => simp [charsLe]
  | cons x xs ih =>
    cases b with
    | nil => simp [charsLe] at h1
    | cons y ys =>
      cases c with
      | nil => simp [charsLe] at h2
      | cons z zs =>
        simp only [charsLe] at h1 h2 ⊢
        by_cases hxy : x.toNat < y.toNat
        · by_cases hyz : y.toNat < z.toNat
          · have : x.toNat < z.toNat := by omega
            simp [this]
          · by_cases hzy : z.toNat < y.toNat
            · simp [hyz, hzy] at h2
            · have : x.toNat < z.toNat := by omega
              simp [this]
        · by_cases hyx : y.toNat < x.toNat
          · simp [hxy, hyx] at h1
          · simp only [hxy, hyx, if_false] at h1
            by_cases hyz : y.toNat < z.toNat
            · have : x.toNat < z.toNat := by omega
              simp [this]
            · by_cases hzy : z.toNat < y.toNat
              · simp [hyz, hzy] at h2
              · simp only [hyz, hzy, if_false] at h2
                have e1 : ¬ x.toNat < z.toNat := by omega
                have e2 : ¬ z.toNat < x.toNat := by omega
                simp only [e1, e2, if_false]
                exact ih ys zs h1 h2

theorem charsLe_antisymm (a b : List Char) (h1 : charsLe a b = true) (h2 : charsLe b a = true) :
    a = b := by
  induction a generalizing b with
  | nil =>
    cases b with
    | nil => rfl
    | cons y ys => simp [charsLe] at h2
  | cons x xs ih =>
    cases b with
    | nil => simp [charsLe] at h1
    | cons y ys =>
      simp only [charsLe] at h1 h2
      by_cases hxy : x.toNat < y.toNat
      · have : ¬ y.toNat < x.toNat := by omega
        simp [hxy, this] at h2
      · by_cases hyx : y.toNat < x.toNat
        · simp [hxy, hyx] at h1
        · simp only [hxy, hyx, if_false] at h1 h2
          have : x = y := char_toNat_inj (by omega)
          rw [this, ih ys h1 h2]

theorem keyLe_antisymm {a b : String} (h1 : keyLe a b = true) (h2 : keyLe b a = true) :
    a = b :=
  String.ext (charsLe_antisymm _ _ h1 h2)

theorem sortByKey_perm (l : Data) : (sortByKey l).Perm l :=
  List.perm_insertionSort _ l

theorem sortByKey_eq_of_perm {l l' : Data} (hp : l.Perm l') (hnd : (Assoc.keys l).Nodup) :
    sortByKey l = sortByKey l' := by
  haveI : IsTotal (String × Value) (fun a b => keyLe a.1 b.1 = true) :=
    ⟨fun a b => charsLe_total _ _⟩
  haveI : IsTrans (String × Value) (fun a b => keyLe a.1 b.1 = true) :=
    ⟨fun a b c h1 h2 => charsLe_trans _ _ _ h1 h2⟩
  haveI : IsAntisymm (String × Value) (fun a b => keyLe a.1 b.1 = true ∧ a.1 ≠ b.1) :=
    ⟨fun a b h1 h2 => absurd (keyLe_antisymm h1.1 h2.1) h1.2⟩
  have hs : ∀ m : Data, (Assoc.keys m).Nodup →
      List.Sorted (fun a b => keyLe a.1 b.1 = true ∧ a.1 ≠ b.1) (sortByKey m) := by
    intro m hm
    have h1 : List.Pairwise (fun a b : String × Value => keyLe a.1 b.1 = true) (sortByKey m) :=
      List.sorted_insertionSort _ m
    have h2 : (Assoc.keys (sortByKey m)).Nodup :=
      ((sortByKey_perm m).map Prod.fst).nodup_iff.2 hm
    have h3 : List.Pairwise (fun a b : String × Value => a.1 ≠ b.1) (sortByKey m) := by
      simpa [Assoc.keys, List.Nodup, List.pairwise_map] using h2
    exact h1.and h3
  have hnd' : (Assoc.keys l').Nodup := (hp.map Prod.fst).nodup_iff.1 hnd
  exact List.eq_of_perm_of_sorted
    ((sortByKey_perm l).trans (hp.trans (sortByKey_perm l').symm)) (hs l hnd) (hs l' hnd')

theorem encodeJSON_eq_of_perm {l l' : Data} (hp : l.Perm l') (hnd : (Assoc.keys l).Nodup) :
    encodeJSON l = encodeJSON l' := by
  simp only [encodeJSON, sortByKey_eq_of_perm hp hnd]

/-! ## dumpJSON -/

theorem collectSecrets_ok_perm (env : Env) (filename : String) (secrets : List SecretType)
    (kvSecrets : KVSecrets) (d : Data)
    (hok : collectSecrets env filename secrets kvSecrets = .ok d) :
    d.Perm (allContributions secrets kvSecrets) ∧ (Assoc.keys d).Nodup := by
  obtain ⟨hnd, rfl⟩ := (collectSecrets_ok_iff _ _ _ _ _).1 hok
  exact ⟨contributions_perm _ _ _ _ _, hnd⟩

theorem dumpLoop_cons_ok (env : Env) (kvSecrets : KVSecrets) (ftm : List (String × Nat))
    (e : String × List SecretType) (rest : List (String × List SecretType)) (w : World)
    (hg : DumpGood env kvSecrets e) :
    ∃ w1 : World, w1.files = dumpStep kvSecrets ftm w.files e ∧
      w1.opens = w.opens ++ [(e.1, (Assoc.get? e.1 ftm).getD 0)] ∧
      dumpLoop env kvSecrets ftm (e :: rest) w = dumpLoop env kvSecrets ftm rest w1 := by
  obtain ⟨f, secrets⟩ := e
  obtain ⟨hopen, hnd, hwrite⟩ := hg
  obtain ⟨d, hd⟩ := (collectSecrets_isOk_iff env f secrets kvSecrets).2 hnd
  obtain ⟨hperm, hdn⟩ := collectSecrets_ok_perm _ _ _ _ _ hd
  simp only at hopen hwrite hperm
  by_cases hempty : allContributions secrets kvSecrets = []
  · have hd0 : d = [] := by
      have := hperm.length_eq
      rw [hempty] at this
      exact List.length_eq_zero.1 this
    subst hd0
    refine ⟨{ files := openTrunc f ((Assoc.get? f ftm).getD 0) w.files,
              opens := w.opens ++ [(f, (Assoc.get? f ftm).getD 0)],
              dirs := w.dirs ++ [f], scrub := w.scrub ++ [f], warnings := w.warnings },
      ?_, rfl, ?_⟩
    · simp [dumpStep, hempty]
    · simp only [dumpLoop, hopen, if_true, hd, List.length_nil, gt_iff_lt, lt_self_iff_false,
        if_false]
  · have hpos : d.length > 0 := by
      rw [hperm.length_eq]
      exact List.length_pos.2 hempty
    refine ⟨{ files := writeContent f (encodeJSON d)
                (openTrunc f ((Assoc.get? f ftm).getD 0) w.files),
              opens := w.opens ++ [(f, (Assoc.get? f ftm).getD 0)],
              dirs := w.dirs ++ [f], scrub := w.scrub ++ [f], warnings := w.warnings },
      ?_, rfl, ?_⟩
    · simp [dumpStep, hempty, encodeJSON_eq_of_perm hperm hdn]
    · simp only [dumpLoop, hopen, if_true, hd, hpos, hwrite hempty]

theorem dumpLoop_cons_bad (env : Env) (kvSecrets : KVSecrets) (ftm : List (String × Nat))
    (e : String × List SecretType) (rest : List (String × List SecretType)) (w : World)
    (hg : ¬ DumpGood env kvSecrets e) :
    (dumpLoop env kvSecrets ftm (e :: rest) w).1 ≠ none := by
  obtain ⟨f, secrets⟩ := e
  by_cases hopen : env.openOk f = true
  · cases hd : collectSecrets env f secrets kvSecrets with
    | error err => simp [dumpLoop, hopen, hd]
    | ok d =>
      obtain ⟨hperm, hdn⟩ := collectSecrets_ok_perm _ _ _ _ _ hd
      have hnd := (collectSecrets_isOk_iff env f secrets kvSecrets).1 ⟨d, hd⟩
      have hw : ¬ (allContributions secrets kvSecrets ≠ [] → env.writeOk f = true) :=
        fun h => hg ⟨hopen, hnd, h⟩
      rw [Classical.not_imp] at hw
      have hpos : d.length > 0 := by
        rw [hperm.length_eq]
        exact List.length_pos.2 hw.1
      simp [dumpLoop, hopen, hd, hpos, hw.2]
  · simp [dumpLoop, hopen]

theorem dumpLoop_none_iff (env : Env) (kvSecrets : KVSecrets) (ftm : List (String × Nat))
    (l : List (String × List SecretType)) (w : World) :
    (dumpLoop env kvSecrets ftm l w).1 = none ↔ ∀ e ∈ l, DumpGood env kvSecrets e := by
  induction l generalizing w with
  | nil => simp [dumpLoop]
  | cons e rest ih =>
    by_cases hg : DumpGood env kvSecrets e
    · obtain ⟨w1, -, -, heq⟩ := dumpLoop_cons_ok env kvSecrets ftm e rest w hg
      rw [heq, ih w1]
      simp [hg]
    · constructor
      · intro h
        exact absurd h (dumpLoop_cons_bad env kvSecrets ftm e rest w hg)
      · intro h
        exact absurd (h e (List.mem_cons_self _ _)) hg

theorem dumpLoop_files_of_none (env : Env) (kvSecrets : KVSecrets) (ftm : List (String × Nat))
    (l : List (String × List SecretType)) (w : World)
    (h : (dumpLoop env kvSecrets ftm l w).1 = none) :
    (dumpLoop env kvSecrets ftm l w).2.files = l.foldl (dumpStep kvSecrets ftm) w.files := by
  induction l generalizing w with
  | nil => simp [dumpLoop]
  | cons e rest ih =>
    have hg : DumpGood env kvSecrets e :=
      (dumpLoop_none_iff env kvSecrets ftm (e :: rest) w).1 h e (List.mem_cons_self _ _)
    obtain ⟨w1, hf, -, heq⟩ := dumpLoop_cons_ok env kvSecrets ftm e rest w hg
    rw [heq] at h ⊢
    rw [ih w1 h, hf, List.foldl_cons]

theorem contribution_plain (r : SecretType) (h : r.UseKeyAsPrefix = false) (d : Data) :
    d.map (contribution r) = d := by
  conv_rhs => rw [← List.map_id d]
  apply List.map_congr_left
  intro e _
  simp [contribution, outputKey, h]

theorem dumpStep_content (kvSecrets : KVSecrets) (ftm : List (String × Nat))
    (files : String → Option File) (e : String × List SecretType) :
    (dumpStep kvSecrets ftm files e e.1).map File.content =
      some (if allContributions e.2 kvSecrets = [] then ""
            else encodeJSON (allContributions e.2 kvSecrets)) := by
  by_cases h : allContributions e.2 kvSecrets = []
  · simp only [dumpStep, h, if_true, openTrunc]
    cases files e.1 <;> rfl
  · simp only [dumpStep, h, if_false, openTrunc, writeContent, if_true]
    cases files e.1 <;> rfl

/-- C5: for two requests without `UseKeyAsPrefix` whose fetched secrets have
disjoint field names, `collectSecrets` succeeds and returns the union of the two
maps, and `dumpJSON`, when the file opens and the write succeeds, ends without
error and leaves in the file the JSON object of the union when the union is
not empty, and zero bytes when it is empty. -/
theorem C5_disjoint_union (env : Env) (filename : String) (kvSecrets : KVSecrets)
    (r1 r2 : SecretType) (ftm : List (String × Nat)) (w : World)
    (hwf : WellFormed kvSecrets)
    (h1 : r1.UseKeyAsPrefix = false) (h2 : r2.UseKeyAsPrefix = false)
    (hdisj : ∀ k ∈ Assoc.keys (dataOf kvSecrets r1.Key),
      k ∉ Assoc.keys (dataOf kvSecrets r2.Key))
    (hopen : env.openOk filename = true) (hwrite : env.writeOk filename = true) :
    (∃ d, collectSecrets env filename [r1, r2] kvSecrets = .ok d ∧
      d.Perm (dataOf kvSecrets r1.Key ++ dataOf kvSecrets r2.Key)) ∧
    (dumpJSON env kvSecrets [(filename, [r1, r2])] ftm w).1 = none ∧
    ((dumpJSON env kvSecrets [(filename, [r1, r2])] ftm w).2.files filename).map File.content =
      some (if dataOf kvSecrets r1.Key ++ dataOf kvSecrets r2.Key = [] then ""
            else encodeJSON (dataOf kvSecrets r1.Key ++ dataOf kvSecrets r2.Key)) := by
  have hall : allContributions [r1, r2] kvSecrets =
      dataOf kvSecrets r1.Key ++ dataOf kvSecrets r2.Key := by
    simp [allContributions, contribution_plain, h1, h2]
  have hnd : (Assoc.keys (allContributions [r1, r2] kvSecrets)).Nodup := by
    rw [hall, keys_append, List.nodup_append]
    exact ⟨hwf _, hwf _, fun k hk hk' => hdisj k hk hk'⟩
  have hrange : env.rangeFiles [(filename, [r1, r2])] = [(filename, [r1, r2])] :=
    List.perm_singleton.1 (env.rangeFiles_perm _)
  have hgood : ∀ e ∈ [(filename, [r1, r2])], DumpGood env kvSecrets e := by
    intro e he
    rw [List.mem_singleton] at he
    subst he
    exact ⟨hopen, hnd, fun _ => hwrite⟩
  have hnone : (dumpJSON env kvSecrets [(filename, [r1, r2])] ftm w).1 = none := by
    rw [dumpJSON, hrange]
    exact (dumpLoop_none_iff _ _ _ _ _).2 hgood
  refine ⟨?_, hnone, ?_⟩
  · obtain ⟨d, hd⟩ := (collectSecrets_isOk_iff env filename [r1, r2] kvSecrets).2 hnd
    exact ⟨d, hd, hall ▸ (collectSecrets_ok_perm _ _ _ _ _ hd).1⟩
  · rw [dumpJSON, hrange] at hnone ⊢
    rw [dumpLoop_files_of_none _ _ _ _ _ hnone]
    simp only [List.foldl_cons, List.foldl_nil]
    have := dumpStep_content kvSecrets ftm w.files (filename, [r1, r2])
    simpa [hall] using this

/-- The secrets of `reqApp` and `reqPlain` have disjoint field names; the file holds the JSON object of their union. -/
theorem C5_witness :
    WellFormed kvPlain ∧ reqApp.UseKeyAsPrefix = false ∧ reqPlain.UseKeyAsPrefix = false ∧
    (∀ k ∈ Assoc.keys (dataOf kvPlain reqApp.Key), k ∉ Assoc.keys (dataOf kvPlain reqPlain.Key)) ∧
    env1.openOk "/tmp/all.json" = true ∧ env1.writeOk "/tmp/all.json" = true ∧
    ((∃ d, collectSecrets env1 "/tmp/all.json" [reqApp, reqPlain] kvPlain = .ok d ∧
      d.Perm (dataOf kvPlain reqApp.Key ++ dataOf kvPlain reqPlain.Key)) ∧
    (dumpJSON env1 kvPlain [("/tmp/all.json", [reqApp, reqPlain])] [("/tmp/all.json", 384)]
      world0).1 = none ∧
    ((dumpJSON env1 kvPlain [("/tmp/all.json", [reqApp, reqPlain])] [("/tmp/all.json", 384)]
      world0).2.files "/tmp/all.json").map File.content =
      some (if dataOf kvPlain reqApp.Key ++ dataOf kvPlain reqPlain.Key = [] then ""
            else encodeJSON (dataOf kvPlain reqApp.Key ++ dataOf kvPlain reqPlain.Key))) :=
  ⟨wellFormed_of_forall kvPlain (by decide), rfl, rfl, by decide, rfl, rfl,
   C5_disjoint_union env1 "/tmp/all.json" kvPlain reqApp reqPlain [("/tmp/all.json", 384)] world0
     (wellFormed_of_forall kvPlain (by decide)) rfl rfl (by decide) rfl rfl⟩

/-- C5 as stated fails: two requests without prefix whose fetched secrets have
no field at all (so the field names are disjoint) make `collectSecrets`
succeed with the empty union, and `dumpJSON` then ends without error leaving
the file with zero bytes, which is not the JSON object of the union. -/
theorem C5_counterexample :
    reqEmptyA.UseKeyAsPrefix = false ∧ reqEmptyB.UseKeyAsPrefix = false ∧
    dataOf kvEmpty reqEmptyA.Key = [] ∧ dataOf kvEmpty reqEmptyB.Key = [] ∧
    collectSecrets env0 "/tmp/all.json" [reqEmptyA, reqEmptyB] kvEmpty = .ok [] ∧
    (dumpJSON env0 kvEmpty [("/tmp/all.json", [reqEmptyA, reqEmptyB])]
      [("/tmp/all.json", 384)] world0).1 = none ∧
    (dumpJSON env0 kvEmpty [("/tmp/all.json", [reqEmptyA, reqEmptyB])]
      [("/tmp/all.json", 384)] world0).2.files "/tmp/all.json" = some ⟨"", 384⟩ ∧
    encodeJSON (dataOf kvEmpty reqEmptyA.Key ++ dataOf kvEmpty reqEmptyB.Key) = "\x7b\x7d\n" ∧
    ((dumpJSON env0 kvEmpty [("/tmp/all.json", [reqEmptyA, reqEmptyB])]
      [("/tmp/all.json", 384)] world0).2.files "/tmp/all.json").map File.content ≠
      some (encodeJSON (dataOf kvEmpty reqEmptyA.Key ++ dataOf kvEmpty reqEmptyB.Key)) := by
  refine ⟨rfl, rfl, rfl, rfl, rfl, rfl, rfl, rfl, ?_⟩
  decide

/-! ## Errors of collectSecrets name the file being built -/

theorem collectPlain_error_filename (filename : String) (entries data : Data)
    (e : CollectError) (h : collectPlain filename entries data = .error e) :
    e.filename = filename := by
  induction entries generalizing data with
  | nil => simp [collectPlain] at h
  | cons x rest ih =>
    obtain ⟨k, v⟩ := x
    by_cases hc : Assoc.contains k data = true
    · simp only [collectPlain, hc, if_true, Except.error.injEq] at h
      subst h
      rfl
    · simp only [collectPlain, hc] at h
      exact ih _ h

theorem collectPrefixed_error_filename (r : SecretType) (filename : String)
    (entries data : Data) (e : CollectError)
    (h : collectPrefixed r filename entries data = .error e) :
    e.filename = filename := by
  induction entries generalizing data with
  | nil => simp [collectPrefixed] at h
  | cons x rest ih =>
    obtain ⟨k, v⟩ := x
    by_cases hc : Assoc.contains (r.Key ++ "_" ++ k) data = true
    · simp only [collectPrefixed, hc, if_true, Except.error.injEq] at h
      subst h
      rfl
    · simp only [collectPrefixed, hc] at h
      exact ih _ h

theorem collectLoop_error_filename (env : Env) (filename : String) (kvSecrets : KVSecrets)
    (secrets : List SecretType) (i : Nat) (data : Data) (e : CollectError)
    (h : collectLoop env filename kvSecrets secrets i data = .error e) :
    e.filename = filename := by
  induction secrets generalizing i data with
  | nil => simp [collectLoop] at h
  | cons r rest ih =>
    simp only [collectLoop] at h
    by_cases hp : r.UseKeyAsPrefix = true
    · simp only [hp, if_true] at h
      cases hres : collectPrefixed r filename
          (env.rangeData filename i (dataOf kvSecrets r.Key)) data with
      | error e' =>
        rw [hres] at h
        simp only [Except.error.injEq] at h
        subst h
        exact collectPrefixed_error_filename _ _ _ _ _ hres
      | ok d =>
        rw [hres] at h
        exact ih _ _ h
    · simp only [hp] at h
      cases hres : collectPlain filename
          (env.rangeData filename i (dataOf kvSecrets r.Key)) data with
      | error e' =>
        rw [hres] at h
        simp only [Bool.false_eq_true, if_false, Except.error.injEq] at h
        subst h
        exact collectPlain_error_filename _ _ _ _ hres
      | ok d =>
        rw [hres] at h
        exact ih _ _ h

theorem dumpLoop_collect_error_file (env : Env) (kvSecrets : KVSecrets)
    (ftm : List (String × Nat)) (l : List (String × List SecretType)) (w : World)
    (e : CollectError) (h : (dumpLoop env kvSecrets ftm l w).1 = some (.collect e)) :
    ((dumpLoop env kvSecrets ftm l w).2.files e.filename).map File.content = some "" := by
  induction l generalizing w with
  | nil => simp [dumpLoop] at h
  | cons x rest ih =>
    obtain ⟨f, secrets⟩ := x
    by_cases hopen : env.openOk f = true
    · cases hd : collectSecrets env f secrets kvSecrets with
      | error err =>
        have hf := collectLoop_error_filename env f kvSecrets secrets 0 [] err hd
        simp only [dumpLoop, hopen, if_true, hd, Option.some.injEq, KVError.collect.injEq] at h ⊢
        subst h
        rw [hf]
        simp only [openTrunc, if_true]
        cases w.files f <;> rfl
      | ok d =>
        by_cases hpos : d.length > 0
        · by_cases hw : env.writeOk f = true
          · simp only [dumpLoop, hopen, if_true, hd, hpos, hw] at h ⊢
            exact ih _ h
          · simp [dumpLoop, hopen, hd, hpos, hw] at h
        · simp only [dumpLoop, hopen, if_true, hd, hpos, if_false] at h ⊢
          exact ih _ h
    · simp [dumpLoop, hopen] at h

theorem not_nodup_of_shared_field (kvSecrets : KVSecrets) (a b c : List SecretType)
    (r1 r2 : SecretType) (h1 : r1.UseKeyAsPrefix = false) (h2 : r2.UseKeyAsPrefix = false)
    (k : String) (hk1 : k ∈ Assoc.keys (dataOf kvSecrets r1.Key))
    (hk2 : k ∈ Assoc.keys (dataOf kvSecrets r2.Key)) :
    ¬ (Assoc.keys (allContributions (a ++ r1 :: (b ++ r2 :: c)) kvSecrets)).Nodup := by
  intro hnd
  rw [keys_allContributions] at hnd
  simp only [List.flatMap_append, List.flatMap_cons] at hnd
  have hnd2 := (List.nodup_append.1 hnd).2.1
  have hd := (List.nodup_append.1 hnd2).2.2
  have hx1 : k ∈ List.map (outputKey r1) (Assoc.keys (dataOf kvSecrets r1.Key)) :=
    List.mem_map.2 ⟨k, hk1, by simp [outputKey, h1]⟩
  have hx2 : k ∈ List.map (outputKey r2) (Assoc.keys (dataOf kvSecrets r2.Key)) :=
    List.mem_map.2 ⟨k, hk2, by simp [outputKey, h2]⟩
  exact hd hx1 (List.mem_append_right _ (List.mem_append_left _ hx2))

/-- C8: when two requests without `UseKeyAsPrefix` in the list collected for a
JSON file have secrets that share a field name, `collectSecrets` fails with a
duplicate-key error naming that file, `dumpJSON` on a map holding that list
returns an error, and whenever `dumpJSON` returns a duplicate-key error the
file the error names exists with zero bytes. -/
theorem C8_duplicate_leaves_empty_file (env : Env) (kvSecrets : KVSecrets)
    (filename : String) (a b c : List SecretType) (r1 r2 : SecretType) (k : String)
    (h1 : r1.UseKeyAsPrefix = false) (h2 : r2.UseKeyAsPrefix = false)
    (hk1 : k ∈ Assoc.keys (dataOf kvSecrets r1.Key))
    (hk2 : k ∈ Assoc.keys (dataOf kvSecrets r2.Key)) :
    (∃ e, collectSecrets env filename (a ++ r1 :: (b ++ r2 :: c)) kvSecrets = .error e ∧
      e.filename = filename) ∧
    (∀ stf ftm w, (filename, a ++ r1 :: (b ++ r2 :: c)) ∈ stf →
      (dumpJSON env kvSecrets stf ftm w).1 ≠ none) ∧
    (∀ stf ftm w e, (dumpJSON env kvSecrets stf ftm w).1 = some (.collect e) →
      ((dumpJSON env kvSecrets stf ftm w).2.files e.filename).map File.content = some "") := by
  have hbad := not_nodup_of_shared_field kvSecrets a b c r1 r2 h1 h2 k hk1 hk2
  refine ⟨?_, ?_, ?_⟩
  · obtain ⟨e, he⟩ := (collectSecrets_error_iff env filename _ kvSecrets).2 hbad
    exact ⟨e, he, collectLoop_error_filename env filename kvSecrets _ 0 [] e he⟩
  · intro stf ftm w hmem hnone
    have hin : (filename, a ++ r1 :: (b ++ r2 :: c)) ∈ env.rangeFiles stf :=
      (env.rangeFiles_perm stf).mem_iff.2 hmem
    exact hbad ((dumpLoop_none_iff _ _ _ _ _).1 hnone _ hin).2.1
  · intro stf ftm w e he
    exact dumpLoop_collect_error_file env kvSecrets ftm _ w e he

/-- The requests `reqApp` and `reqOther` share the field `password`. -/
theorem C8_witness :
    reqApp.UseKeyAsPrefix = false ∧ reqOther.UseKeyAsPrefix = false ∧
    "password" ∈ Assoc.keys (dataOf kvSample reqApp.Key) ∧
    "password" ∈ Assoc.keys (dataOf kvSample reqOther.Key) ∧
    ((∃ e, collectSecrets env0 "/tmp/all.json" ([] ++ reqApp :: ([reqDb] ++ reqOther :: []))
        kvSample = .error e ∧ e.filename = "/tmp/all.json") ∧
    (∀ stf ftm w, ("/tmp/all.json", [] ++ reqApp :: ([reqDb] ++ reqOther :: [])) ∈ stf →
      (dumpJSON env0 kvSample stf ftm w).1 ≠ none) ∧
    (∀ stf ftm w e, (dumpJSON env0 kvSample stf ftm w).1 = some (.collect e) →
      ((dumpJSON env0 kvSample stf ftm w).2.files e.filename).map File.content = some "")) :=
  ⟨rfl, rfl, by decide, by decide,
   C8_duplicate_leaves_empty_file env0 kvSample "/tmp/all.json" [] [reqDb] [] reqApp reqOther
     "password" rfl rfl (by decide) (by decide)⟩

/-! ## The loops of writeKVOutput -/

theorem writeField_files_other (env : Env) (mode : Nat) (field : SecretField) (value : Value)
    (w : World) (p : String) (hp : field.Output ≠ p) :
    (writeField env mode field value w).2.files p = w.files p := by
  have hp' : ¬ p = field.Output := fun e => hp e.symm
  unfold writeField
  by_cases ho : env.openOk field.Output = true
  · by_cases hw : env.writeOk field.Output = true
    · simp [ho, hw, openTrunc, writeContent, hp']
    · simp [ho, hw, openTrunc, hp']
  · simp [ho]

theorem writeField_none_iff (env : Env) (mode : Nat) (field : SecretField) (value : Value)
    (w : World) :
    (writeField env mode field value w).1 = none ↔
      env.openOk field.Output = true ∧ env.writeOk field.Output = true := by
  unfold writeField
  by_cases ho : env.openOk field.Output = true
  · by_cases hw : env.writeOk field.Output = true
    · simp [ho, hw]
    · simp [ho, hw]
  · simp [ho]

theorem writeField_content (env : Env) (mode : Nat) (field : SecretField) (value : Value)
    (w : World) (h : (writeField env mode field value w).1 = none) :
    ((writeField env mode field value w).2.files field.Output).map File.content =
      some (fprint value) := by
  obtain ⟨ho, hw⟩ := (writeField_none_iff env mode field value w).1 h
  simp only [writeField, ho, hw, if_true, writeContent, openTrunc]
  cases w.files field.Output <;> rfl

theorem fieldsLoop_cons_absent (env : Env) (kvSecrets : KVSecrets) (mode : Nat)
    (r : SecretType) (field : SecretField) (rest : List SecretField) (w : World)
    (habs : fieldValue kvSecrets r.Key field.Name = Value.null) (hok : r.IsMissingOk = true) :
    fieldsLoop env kvSecrets mode r (field :: rest) w =
      fieldsLoop env kvSecrets mode r rest
        { w with warnings := w.warnings ++ [(field.Name, r.Key, field.Output)] } := by
  simp [fieldsLoop, habs, hok]

theorem fieldsLoop_cons_missing (env : Env) (kvSecrets : KVSecrets) (mode : Nat)
    (r : SecretType) (field : SecretField) (rest : List SecretField) (w : World)
    (habs : fieldValue kvSecrets r.Key field.Name = Value.null) (hok : r.IsMissingOk = false) :
    fieldsLoop env kvSecrets mode r (field :: rest) w =
      (some (.missingField field.Name r.Key), w) := by
  simp [fieldsLoop, habs, hok]

theorem fieldsLoop_cons_present (env : Env) (kvSecrets : KVSecrets) (mode : Nat)
    (r : SecretType) (field : SecretField) (rest : List SecretField) (w : World)
    (hval : fieldValue kvSecrets r.Key field.Name ≠ Value.null) :
    fieldsLoop env kvSecrets mode r (field :: rest) w =
      if (writeField env mode field (fieldValue kvSecrets r.Key field.Name) w).1 = none then
        fieldsLoop env kvSecrets mode r rest
          (writeField env mode field (fieldValue kvSecrets r.Key field.Name) w).2
      else writeField env mode field (fieldValue kvSecrets r.Key field.Name) w := by
  simp only [fieldsLoop, hval, if_false]
  rcases hres : writeField env mode field (fieldValue kvSecrets r.Key field.Name) w with ⟨o, w'⟩
  cases o <;> simp

theorem fieldsLoop_append_of_none (env : Env) (kvSecrets : KVSecrets) (mode : Nat)
    (r : SecretType) (a b : List SecretField) (w : World)
    (h : (fieldsLoop env kvSecrets mode r a w).1 = none) :
    fieldsLoop env kvSecrets mode r (a ++ b) w =
      fieldsLoop env kvSecrets mode r b (fieldsLoop env kvSecrets mode r a w).2 := by
  induction a generalizing w with
  | nil => simp [fieldsLoop]
  | cons f rest ih =>
    by_cases habs : fieldValue kvSecrets r.Key f.Name = Value.null
    · by_cases hok : r.IsMissingOk = true
      · have e1 := fieldsLoop_cons_absent env kvSecrets mode r f rest w habs hok
        have e2 := fieldsLoop_cons_absent env kvSecrets mode r f (rest ++ b) w habs hok
        rw [e1] at h
        rw [List.cons_append, e2, e1]
        exact ih _ h
      · have hok' : r.IsMissingOk = false := by simpa using hok
        rw [fieldsLoop_cons_missing _ _ _ _ _ _ _ habs hok'] at h
        simp at h
    · have e1 := fieldsLoop_cons_present env kvSecrets mode r f rest w habs
      have e2 := fieldsLoop_cons_present env kvSecrets mode r f (rest ++ b) w habs
      rw [e1] at h
      rw [List.cons_append, e2, e1]
      by_cases hw : (writeField env mode f (fieldValue kvSecrets r.Key f.Name) w).1 = none
      · simp only [hw, if_true] at h ⊢
        exact ih _ h
      · simp only [hw, if_false] at h

theorem fieldsLoop_append_of_some (env : Env) (kvSecrets : KVSecrets) (mode : Nat)
    (r : SecretType) (a b : List SecretField) (w : World)
    (h : (fieldsLoop env kvSecrets mode r a w).1 ≠ none) :
    fieldsLoop env kvSecrets mode r (a ++ b) w = fieldsLoop env kvSecrets mode r a w := by
  induction a generalizing w with
  | nil => simp [fieldsLoop] at h
  | cons f rest ih =>
    by_cases habs : fieldValue kvSecrets r.Key f.Name = Value.null
    · by_cases hok : r.IsMissingOk = true
      · have e1 := fieldsLoop_cons_absent env kvSecrets mode r f rest w habs hok
        have e2 := fieldsLoop_cons_absent env kvSecrets mode r f (rest ++ b) w habs hok
        rw [e1] at h
        rw [List.cons_append, e2, e1]
        exact ih _ h
      · have hok' : r.IsMissingOk = false := by simpa using hok
        rw [List.cons_append, fieldsLoop_cons_missing _ _ _ _ _ _ _ habs hok',
          fieldsLoop_cons_missing _ _ _ _ _ _ _ habs hok']
    · have e1 := fieldsLoop_cons_present env kvSecrets mode r f rest w habs
      have e2 := fieldsLoop_cons_present env kvSecrets mode r f (rest ++ b) w habs
      rw [e1] at h
      rw [List.cons_append, e2, e1]
      by_cases hw : (writeField env mode f (fieldValue kvSecrets r.Key f.Name) w).1 = none
      · simp only [hw, if_true] at h ⊢
        exact ih _ h
      · simp only [hw, if_false]

theorem fieldsLoop_frame (env : Env) (kvSecrets : KVSecrets) (mode : Nat)
    (r : SecretType) (fields : List SecretField) (w : World) (p : String)
    (h : ∀ g ∈ fields, g.Output = p → fieldValue kvSecrets r.Key g.Name = Value.null) :
    (fieldsLoop env kvSecrets mode r fields w).2.files p = w.files p := by
  induction fields generalizing w with
  | nil => simp [fieldsLoop]
  | cons f rest ih =>
    have hrest : ∀ g ∈ rest, g.Output = p → fieldValue kvSecrets r.Key g.Name = Value.null :=
      fun g hg => h g (List.mem_cons_of_mem _ hg)
    by_cases habs : fieldValue kvSecrets r.Key f.Name = Value.null
    · by_cases hok : r.IsMissingOk = true
      · rw [fieldsLoop_cons_absent _ _ _ _ _ _ _ habs hok, ih _ hrest]
      · have hok' : r.IsMissingOk = false := by simpa using hok
        rw [fieldsLoop_cons_missing _ _ _ _ _ _ _ habs hok']
    · have hne : f.Output ≠ p := fun e => habs (h f (List.mem_cons_self _ _) e)
      rw [fieldsLoop_cons_present _ _ _ _ _ _ _ habs]
      by_cases hw : (writeField env mode f (fieldValue kvSecrets r.Key f.Name) w).1 = none
      · simp only [hw, if_true]
        rw [ih _ hrest, writeField_files_other _ _ _ _ _ _ hne]
      · simp only [hw, if_false]
        exact writeField_files_other _ _ _ _ _ _ hne

theorem requestsLoop_cons_bad (env : Env) (kvSecrets : KVSecrets) (r : SecretType)
    (rest : List SecretType) (m : Maps) (w : World)
    (hbad : env.stringToFileMode r.Mode = none) :
    requestsLoop env kvSecrets (r :: rest) m w = (.error (.parseMode r.Mode r.Key), w) := by
  simp [requestsLoop, hbad]

theorem requestsLoop_cons_ok (env : Env) (kvSecrets : KVSecrets) (r : SecretType)
    (rest : List SecretType) (m : Maps) (w : World) (mode : Nat)
    (hmode : env.stringToFileMode r.Mode = some mode)
    (hf : (fieldsLoop env kvSecrets mode r r.Fields w).1 = none) :
    requestsLoop env kvSecrets (r :: rest) m w =
      requestsLoop env kvSecrets rest (record r mode m)
        (fieldsLoop env kvSecrets mode r r.Fields w).2 := by
  rcases hres : fieldsLoop env kvSecrets mode r r.Fields w with ⟨o, w'⟩
  rw [hres] at hf
  simp only at hf
  subst hf
  simp [requestsLoop, hmode, hres]

theorem requestsLoop_cons_err (env : Env) (kvSecrets : KVSecrets) (r : SecretType)
    (rest : List SecretType) (m : Maps) (w : World) (mode : Nat) (e : KVError)
    (hmode : env.stringToFileMode r.Mode = some mode)
    (hf : (fieldsLoop env kvSecrets mode r r.Fields w).1 = some e) :
    requestsLoop env kvSecrets (r :: rest) m w =
      (.error e, (fieldsLoop env kvSecrets mode r r.Fields w).2) := by
  rcases hres : fieldsLoop env kvSecrets mode r r.Fields w with ⟨o, w'⟩
  rw [hres] at hf
  simp only at hf
  subst hf
  simp [requestsLoop, hmode, hres]

theorem requestsLoop_cons_ok_inv (env : Env) (kvSecrets : KVSecrets) (r : SecretType)
    (rest : List SecretType) (m m2 : Maps) (w w2 : World)
    (h : requestsLoop env kvSecrets (r :: rest) m w = (.ok m2, w2)) :
    ∃ mode, env.stringToFileMode r.Mode = some mode ∧
      (fieldsLoop env kvSecrets mode r r.Fields w).1 = none ∧
      requestsLoop env kvSecrets rest (record r mode m)
        (fieldsLoop env kvSecrets mode r r.Fields w).2 = (.ok m2, w2) := by
  cases hmode : env.stringToFileMode r.Mode with
  | none =>
    rw [requestsLoop_cons_bad _ _ _ _ _ _ hmode] at h
    simp at h
  | some mode =>
    cases hf : (fieldsLoop env kvSecrets mode r r.Fields w).1 with
    | some e =>
      rw [requestsLoop_cons_err _ _ _ _ _ _ _ _ hmode hf] at h
      simp at h
    | none =>
      rw [requestsLoop_cons_ok _ _ _ _ _ _ _ hmode hf] at h
      exact ⟨mode, rfl, hf, h⟩

theorem requestsLoop_append_ok (env : Env) (kvSecrets : KVSecrets) (a b : List SecretType)
    (m m1 : Maps) (w w1 : World)
    (h : requestsLoop env kvSecrets a m w = (.ok m1, w1)) :
    requestsLoop env kvSecrets (a ++ b) m w = requestsLoop env kvSecrets b m1 w1 := by
  induction a generalizing m w with
  | nil =>
    simp only [requestsLoop, Prod.mk.injEq, Except.ok.injEq] at h
    obtain ⟨rfl, rfl⟩ := h
    rfl
  | cons r rest ih =>
    obtain ⟨mode, hmode, hf, hrest⟩ := requestsLoop_cons_ok_inv _ _ _ _ _ _ _ _ h
    rw [List.cons_append, requestsLoop_cons_ok _ _ _ _ _ _ _ hmode hf]
    exact ih _ _ hrest

theorem requestsLoop_append_err (env : Env) (kvSecrets : KVSecrets) (a b : List SecretType)
    (m : Maps) (w w1 : World) (e : KVError)
    (h : requestsLoop env kvSecrets a m w = (.error e, w1)) :
    requestsLoop env kvSecrets (a ++ b) m w = (.error e, w1) := by
  induction a generalizing m w with
  | nil => simp [requestsLoop] at h
  | cons r rest ih =>
    cases hmode : env.stringToFileMode r.Mode with
    | none =>
      rw [requestsLoop_cons_bad _ _ _ _ _ _ hmode] at h
      rw [List.cons_append, requestsLoop_cons_bad _ _ _ _ _ _ hmode]
      exact h
    | some mode =>
      cases hf : (fieldsLoop env kvSecrets mode r r.Fields w).1 with
      | some e' =>
        rw [requestsLoop_cons_err _ _ _ _ _ _ _ _ hmode hf] at h
        rw [List.cons_append, requestsLoop_cons_err _ _ _ _ _ _ _ _ hmode hf]
        exact h
      | none =>
        rw [requestsLoop_cons_ok _ _ _ _ _ _ _ hmode hf] at h
        rw [List.cons_append, requestsLoop_cons_ok _ _ _ _ _ _ _ hmode hf]
        exact ih _ _ h

theorem requestsLoop_ok_split (env : Env) (kvSecrets : KVSecrets) (a b : List SecretType)
    (m m2 : Maps) (w w2 : World)
    (h : requestsLoop env kvSecrets (a ++ b) m w = (.ok m2, w2)) :
    ∃ m1 w1, requestsLoop env kvSecrets a m w = (.ok m1, w1) ∧
      requestsLoop env kvSecrets b m1 w1 = (.ok m2, w2) := by
  rcases hres : requestsLoop env kvSecrets a m w with ⟨res, w1⟩
  cases res with
  | error e =>
    rw [requestsLoop_append_err _ _ _ _ _ _ _ _ hres] at h
    simp at h
  | ok m1 =>
    rw [requestsLoop_append_ok _ _ _ _ _ _ _ _ hres] at h
    exact ⟨m1, w1, rfl, h⟩

theorem requestsLoop_frame (env : Env) (kvSecrets : KVSecrets) (reqs : List SecretType)
    (m : Maps) (w : World) (p : String)
    (h : ∀ r ∈ reqs, ∀ g ∈ r.Fields, g.Output = p →
      fieldValue kvSecrets r.Key g.Name = Value.null) :
    (requestsLoop env kvSecrets reqs m w).2.files p = w.files p := by
  induction reqs generalizing m w with
  | nil => simp [requestsLoop]
  | cons r rest ih =>
    have hrest : ∀ r' ∈ rest, ∀ g ∈ r'.Fields, g.Output = p →
        fieldValue kvSecrets r'.Key g.Name = Value.null :=
      fun r' hr' => h r' (List.mem_cons_of_mem _ hr')
    cases hmode : env.stringToFileMode r.Mode with
    | none => rw [requestsLoop_cons_bad _ _ _ _ _ _ hmode]
    | some mode =>
      have hfr := fieldsLoop_frame env kvSecrets mode r r.Fields w p
        (h r (List.mem_cons_self _ _))
      cases hf : (fieldsLoop env kvSecrets mode r r.Fields w).1 with
      | some e =>
        rw [requestsLoop_cons_err _ _ _ _ _ _ _ _ hmode hf]
        exact hfr
      | none =>
        rw [requestsLoop_cons_ok _ _ _ _ _ _ _ hmode hf, ih _ _ hrest, hfr]

theorem dumpLoop_frame (env : Env) (kvSecrets : KVSecrets) (ftm : List (String × Nat))
    (l : List (String × List SecretType)) (w : World) (p : String)
    (h : p ∉ Assoc.keys l) :
    (dumpLoop env kvSecrets ftm l w).2.files p = w.files p := by
  induction l generalizing w with
  | nil => simp [dumpLoop]
  | cons x rest ih =>
    obtain ⟨f, secrets⟩ := x
    simp only [Assoc.keys, List.map_cons, List.mem_cons, not_or] at h
    have hrest : p ∉ Assoc.keys rest := h.2
    have hpf : ¬ p = f := h.1
    by_cases hopen : env.openOk f = true
    · cases hd : collectSecrets env f secrets kvSecrets with
      | error err => simp [dumpLoop, hopen, hd, openTrunc, hpf]
      | ok d =>
        by_cases hpos : d.length > 0
        · by_cases hw : env.writeOk f = true
          · simp only [dumpLoop, hopen, if_true, hd, hpos, hw]
            rw [ih _ hrest]
            simp [writeContent, openTrunc, hpf]
          · simp [dumpLoop, hopen, hd, hpos, hw, openTrunc, hpf]
        · simp only [dumpLoop, hopen, if_true, hd, hpos, if_false]
          rw [ih _ hrest]
          simp [openTrunc, hpf]
    · simp [dumpLoop, hopen]

/-! ## The maps built by writeKVOutput -/

theorem group_append (a b : List SecretType) (f : String) :
    group (a ++ b) f = group a f ++ group b f := by
  simp [group]

theorem group_single (r : SecretType) (f : String) :
    group [r] f = if r.Output = f then [r] else [] := by
  by_cases h : r.Output = f <;> simp [group, h]

theorem firstMode_append_single (env : Env) (done : List SecretType) (r : SecretType)
    (f : String) :
    firstMode env (done ++ [r]) f =
      match done.find? (fun x => x.Output = f) with
      | some r0 => env.stringToFileMode r0.Mode
      | none => if r.Output = f then env.stringToFileMode r.Mode else none := by
  unfold firstMode
  rw [List.find?_append]
  cases h : done.find? (fun x => x.Output = f) with
  | some r0 => simp
  | none =>
    by_cases hr : r.Output = f <;> simp [hr]

theorem mapsInv_nil (env : Env) : MapsInv env [] ⟨[], []⟩ where
  nodup := by simp [Assoc.keys]
  stf := by intro f; simp [Assoc.get?, group]
  ftm := by intro f; simp [Assoc.get?, firstMode]
  modes := by intro r hr; simp at hr

theorem mapsInv_record (env : Env) (done : List SecretType) (m : Maps) (r : SecretType)
    (mode : Nat) (hmode : env.stringToFileMode r.Mode = some mode)
    (hinv : MapsInv env done m) : MapsInv env (done ++ [r]) (record r mode m) := by
  have hmodes : ∀ x ∈ done ++ [r], ∃ md, env.stringToFileMode x.Mode = some md := by
    intro x hx
    rcases List.mem_append.1 hx with h | h
    · exact hinv.modes x h
    · rw [List.mem_singleton] at h
      subst h
      exact ⟨mode, hmode⟩
  by_cases hout : r.Output = ""
  · have hrec : record r mode m = m := by simp [record, hout]
    rw [hrec]
    refine ⟨hinv.nodup, ?_, ?_, hmodes⟩
    · intro f
      rw [hinv.stf f, group_append, group_single]
      by_cases hf : f = ""
      · simp [hf]
      · have : ¬ r.Output = f := fun e => hf (e ▸ hout)
        simp [this]
    · intro f
      rw [hinv.ftm f, firstMode_append_single]
      by_cases hf : f = ""
      · simp [hf]
      · have : ¬ r.Output = f := fun e => hf (e ▸ hout)
        simp only [hf, if_false, this, firstMode]
        cases done.find? (fun x => x.Output = f) <;> rfl
  · have hget : (Assoc.get? r.Output m.secretsToFileMap).getD [] = group done r.Output := by
      rw [hinv.stf]
      by_cases hg : group done r.Output = []
      · simp [hg]
      · simp [hg, hout]
    refine ⟨?_, ?_, ?_, hmodes⟩
    · simp only [record, hout, ne_eq, not_false_eq_true, if_true]
      exact Assoc.nodup_keys_set _ _ _ hinv.nodup
    · intro f
      simp only [record, hout, ne_eq, not_false_eq_true, if_true]
      rw [Assoc.get?_set, hget, group_append, group_single]
      by_cases hf : r.Output = f
      · subst hf
        simp [hout]
      · simp only [hf, if_false, List.append_nil]
        exact hinv.stf f
    · intro f
      simp only [record, hout, ne_eq, not_false_eq_true, if_true]
      rw [firstMode_append_single]
      by_cases hc : Assoc.contains r.Output m.fileToModeMap = true
      · simp only [hc, if_true]
        rw [hinv.ftm f]
        by_cases hf : f = ""
        · simp [hf]
        · simp only [hf, if_false, firstMode]
          cases hfind : done.find? (fun x => x.Output = f) with
          | some r0 => rfl
          | none =>
            by_cases hrf : r.Output = f
            · exfalso
              subst hrf
              have h1 := hinv.ftm r.Output
              simp only [hout, if_false, firstMode, hfind, Option.bind] at h1
              simp [Assoc.contains, h1] at hc
            · simp [hrf]
      · have hnone : Assoc.get? r.Output m.fileToModeMap = none := by
          simp only [Assoc.contains] at hc
          cases h : Assoc.get? r.Output m.fileToModeMap with
          | none => rfl
          | some x => simp [h] at hc
        simp only [hc, Bool.false_eq_true, if_false]
        rw [Assoc.get?_set]
        by_cases hrf : r.Output = f
        · subst hrf
          simp only [if_true, hout, if_false]
          have h1 := hinv.ftm r.Output
          rw [hnone] at h1
          simp only [hout, if_false, firstMode] at h1
          cases hfind : done.find? (fun x => x.Output = r.Output) with
          | none => simp [hmode]
          | some r0 =>
            exfalso
            obtain ⟨md, hmd⟩ := hinv.modes r0 (List.mem_of_find?_eq_some hfind)
            rw [hfind] at h1
            simp [Option.bind, hmd] at h1
        · simp only [hrf, if_false]
          rw [hinv.ftm f]
          by_cases hf : f = ""
          · simp [hf]
          · simp only [hf, if_false, firstMode]
            cases done.find? (fun x => x.Output = f) <;> rfl

theorem mapsInv_requestsLoop (env : Env) (kvSecrets : KVSecrets) (done rest : List SecretType)
    (m m' : Maps) (w w' : World) (hinv : MapsInv env done m)
    (h : requestsLoop env kvSecrets rest m w = (.ok m', w')) :
    MapsInv env (done ++ rest) m' := by
  induction rest generalizing done m w with
  | nil =>
    simp only [requestsLoop, Prod.mk.injEq, Except.ok.injEq] at h
    rw [List.append_nil, ← h.1]
    exact hinv
  | cons r rest ih =>
    obtain ⟨mode, hmode, -, hrest⟩ := requestsLoop_cons_ok_inv _ _ _ _ _ _ _ _ h
    have := ih (done ++ [r]) _ _ (mapsInv_record env done m r mode hmode hinv) hrest
    simpa using this

theorem mapsInv_mem (env : Env) (done : List SecretType) (m : Maps)
    (hinv : MapsInv env done m) (e : String × List SecretType)
    (he : e ∈ m.secretsToFileMap) :
    e.1 ≠ "" ∧ e.2 = group done e.1 ∧ group done e.1 ≠ [] := by
  obtain ⟨f, g⟩ := e
  have h1 := Assoc.get?_of_mem hinv.nodup he
  rw [hinv.stf f] at h1
  by_cases hc : f ≠ "" ∧ group done f ≠ []
  · rw [if_pos hc] at h1
    exact ⟨hc.1, (Option.some.inj h1).symm, hc.2⟩
  · rw [if_neg hc] at h1
    cases h1

theorem dumpLoop_opens (env : Env) (kvSecrets : KVSecrets) (ftm : List (String × Nat))
    (l : List (String × List SecretType)) (w : World) :
    ∃ log : List (String × Nat),
      (dumpLoop env kvSecrets ftm l w).2.opens = w.opens ++ log ∧
      (∀ x ∈ log, x.2 = (Assoc.get? x.1 ftm).getD 0) ∧
      ((dumpLoop env kvSecrets ftm l w).1 = none →
        log = l.map (fun e => (e.1, (Assoc.get? e.1 ftm).getD 0))) := by
  induction l generalizing w with
  | nil => exact ⟨[], by simp [dumpLoop], by simp, by simp⟩
  | cons e rest ih =>
    by_cases hg : DumpGood env kvSecrets e
    · obtain ⟨w1, -, ho, heq⟩ := dumpLoop_cons_ok env kvSecrets ftm e rest w hg
      obtain ⟨log, h1, h2, h3⟩ := ih w1
      refine ⟨(e.1, (Assoc.get? e.1 ftm).getD 0) :: log, ?_, ?_, ?_⟩
      · rw [heq, h1, ho]
        simp
      · intro x hx
        rcases List.mem_cons.1 hx with h | h
        · subst h; rfl
        · exact h2 x h
      · intro hn
        rw [heq] at hn
        rw [h3 hn]
        rfl
    · have hbad := dumpLoop_cons_bad env kvSecrets ftm e rest w hg
      refine ⟨[(e.1, (Assoc.get? e.1 ftm).getD 0)], ?_, ?_, fun hn => absurd hn hbad⟩
      · obtain ⟨f, secrets⟩ := e
        by_cases hopen : env.openOk f = true
        · cases hd : collectSecrets env f secrets kvSecrets with
          | error err => simp [dumpLoop, hopen, hd]
          | ok d =>
            by_cases hpos : d.length > 0
            · by_cases hw : env.writeOk f = true
              · exfalso
                obtain ⟨hperm, -⟩ := collectSecrets_ok_perm _ _ _ _ _ hd
                exact hg ⟨hopen, (collectSecrets_isOk_iff env f secrets kvSecrets).1 ⟨d, hd⟩,
                  fun _ => hw⟩
              · simp [dumpLoop, hopen, hd, hpos, hw]
            · exfalso
              obtain ⟨hperm, -⟩ := collectSecrets_ok_perm _ _ _ _ _ hd
              refine hg ⟨hopen, (collectSecrets_isOk_iff env f secrets kvSecrets).1 ⟨d, hd⟩,
                fun hne => ?_⟩
              exfalso
              apply hpos
              rw [hperm.length_eq]
              exact List.length_pos.2 hne
        · simp [dumpLoop, hopen]
      · intro x hx
        rw [List.mem_singleton] at hx
        subst hx; rfl

/-- C7: once the loop of `writeKVOutput` has processed, without error, the
requests up to one that names the JSON output file `f`, the mode recorded for
`f` is the parsed `Mode` of the first request of the whole list whose `Output`
is `f`; it is still the mode recorded when the loop has processed the whole
list, whatever the later requests are, and `dumpJSON` opens `f` with this mode
and no other. -/
theorem C7_first_mode_wins (env : Env) (done rest : List SecretType) (kvSecrets : KVSecrets)
    (w w1 : World) (m1 : Maps)
    (hdone : requestsLoop env kvSecrets done ⟨[], []⟩ w = (.ok m1, w1))
    (r : SecretType) (hr : r ∈ done) (hout : r.Output ≠ "") :
    ∃ r0 mode, (done ++ rest).find? (fun x => x.Output = r.Output) = some r0 ∧
      env.stringToFileMode r0.Mode = some mode ∧
      Assoc.get? r.Output m1.fileToModeMap = some mode ∧
      ∀ m w2, requestsLoop env kvSecrets (done ++ rest) ⟨[], []⟩ w = (.ok m, w2) →
        Assoc.get? r.Output m.fileToModeMap = some mode ∧
        writeKVOutput env (done ++ rest) kvSecrets w =
          dumpJSON env kvSecrets m.secretsToFileMap m.fileToModeMap w2 ∧
        (∀ perm, (r.Output, perm) ∈
            (dumpJSON env kvSecrets m.secretsToFileMap m.fileToModeMap w2).2.opens.drop
              w2.opens.length → perm = mode) ∧
        ((dumpJSON env kvSecrets m.secretsToFileMap m.fileToModeMap w2).1 = none →
          (r.Output, mode) ∈
            (dumpJSON env kvSecrets m.secretsToFileMap m.fileToModeMap w2).2.opens.drop
              w2.opens.length) := by
  have hinv1 : MapsInv env done m1 := by
    have := mapsInv_requestsLoop env kvSecrets [] done _ m1 w w1 (mapsInv_nil env) hdone
    simpa using this
  have hsome : (done.find? (fun x => x.Output = r.Output)).isSome := by
    rw [List.find?_isSome]
    exact ⟨r, hr, by simp⟩
  obtain ⟨r0, hr0⟩ := Option.isSome_iff_exists.1 hsome
  have hr0' : (done ++ rest).find? (fun x => x.Output = r.Output) = some r0 := by
    rw [List.find?_append, hr0]
    rfl
  obtain ⟨mode, hmode⟩ := hinv1.modes r0 (List.mem_of_find?_eq_some hr0)
  have hftm1 : Assoc.get? r.Output m1.fileToModeMap = some mode := by
    rw [hinv1.ftm r.Output]
    simp [hout, firstMode, hr0, hmode]
  refine ⟨r0, mode, hr0', hmode, hftm1, ?_⟩
  intro m w2 hloop
  have hinv : MapsInv env (done ++ rest) m := by
    have := mapsInv_requestsLoop env kvSecrets [] _ _ m w w2 (mapsInv_nil env) hloop
    simpa using this
  have hftm : Assoc.get? r.Output m.fileToModeMap = some mode := by
    rw [hinv.ftm r.Output]
    simp [hout, firstMode, hr0', hmode]
  obtain ⟨log, h1, h2, h3⟩ := dumpLoop_opens env kvSecrets m.fileToModeMap
    (env.rangeFiles m.secretsToFileMap) w2
  have hdrop : (dumpJSON env kvSecrets m.secretsToFileMap m.fileToModeMap w2).2.opens.drop
      w2.opens.length = log := by
    rw [dumpJSON, h1]
    simp
  refine ⟨hftm, by simp [writeKVOutput, hloop], ?_, ?_⟩
  · intro perm hp
    rw [hdrop] at hp
    have := h2 _ hp
    simp only [hftm, Option.getD_some] at this
    exact this
  · intro hn
    rw [hdrop, h3 hn]
    have hgrp : group (done ++ rest) r.Output ≠ [] := by
      intro he
      have : r ∈ group (done ++ rest) r.Output := by simp [group, hr]
      rw [he] at this
      simp at this
    have hmem : (r.Output, group (done ++ rest) r.Output) ∈ m.secretsToFileMap := by
      apply Assoc.mem_of_get?
      rw [hinv.stf]
      simp [hout, hgrp]
    have hmem' := (env.rangeFiles_perm m.secretsToFileMap).mem_iff.2 hmem
    refine List.mem_map.2 ⟨_, hmem', ?_⟩
    simp [hftm]

/-- Three requests name `/tmp/all.json` with the modes 0600, 0640 and 0644; the mode recorded and used is 0600. -/
theorem C7_witness :
    reqDb ∈ [reqApp, reqDb] ∧ reqDb.Output ≠ "" ∧
    ([reqApp, reqDb] ++ [reqOther]).find? (fun x => x.Output = reqDb.Output) = some reqApp ∧
    env0.stringToFileMode reqApp.Mode = some 384 ∧
    env0.stringToFileMode reqDb.Mode = some 416 ∧
    env0.stringToFileMode reqOther.Mode = some 420 ∧
    (requestsLoop env0 kvSample [reqApp, reqDb] ⟨[], []⟩ world0).1 =
      .ok ⟨[("/tmp/all.json", [reqApp, reqDb])], [("/tmp/all.json", 384)]⟩ ∧
    (requestsLoop env0 kvSample ([reqApp, reqDb] ++ [reqOther]) ⟨[], []⟩ world0).1 =
      .ok ⟨[("/tmp/all.json", [reqApp, reqDb, reqOther])], [("/tmp/all.json", 384)]⟩ ∧
    ∃ r0 mode, ([reqApp, reqDb] ++ [reqOther]).find? (fun x => x.Output = reqDb.Output) =
        some r0 ∧
      env0.stringToFileMode r0.Mode = some mode ∧
      Assoc.get? reqDb.Output [("/tmp/all.json", 384)] = some mode ∧
      ∀ m w2, requestsLoop env0 kvSample ([reqApp, reqDb] ++ [reqOther]) ⟨[], []⟩ world0 =
          (.ok m, w2) →
        Assoc.get? reqDb.Output m.fileToModeMap = some mode ∧
        writeKVOutput env0 ([reqApp, reqDb] ++ [reqOther]) kvSample world0 =
          dumpJSON env0 kvSample m.secretsToFileMap m.fileToModeMap w2 ∧
        (∀ perm, (reqDb.Output, perm) ∈
            (dumpJSON env0 kvSample m.secretsToFileMap m.fileToModeMap w2).2.opens.drop
              w2.opens.length → perm = mode) ∧
        ((dumpJSON env0 kvSample m.secretsToFileMap m.fileToModeMap w2).1 = none →
          (reqDb.Output, mode) ∈
            (dumpJSON env0 kvSample m.secretsToFileMap m.fileToModeMap w2).2.opens.drop
              w2.opens.length) :=
  ⟨by decide, by decide, rfl, rfl, rfl, rfl, rfl, rfl,
   C7_first_mode_wins env0 [reqApp, reqDb] [reqOther] kvSample world0
     (requestsLoop env0 kvSample [reqApp, reqDb] ⟨[], []⟩ world0).2
     ⟨[("/tmp/all.json", [reqApp, reqDb])], [("/tmp/all.json", 384)]⟩ rfl
     reqDb (by decide) (by decide)⟩

/-! ## writeKVOutput -/

theorem writeKVOutput_of_loop_ok (env : Env) (secrets : List SecretType)
    (kvSecrets : KVSecrets) (w w1 : World) (m : Maps)
    (h : requestsLoop env kvSecrets secrets ⟨[], []⟩ w = (.ok m, w1)) :
    writeKVOutput env secrets kvSecrets w =
      dumpJSON env kvSecrets m.secretsToFileMap m.fileToModeMap w1 := by
  simp [writeKVOutput, h]

theorem writeKVOutput_of_loop_error (env : Env) (secrets : List SecretType)
    (kvSecrets : KVSecrets) (w w1 : World) (e : KVError)
    (h : requestsLoop env kvSecrets secrets ⟨[], []⟩ w = (.error e, w1)) :
    writeKVOutput env secrets kvSecrets w = (some e, w1) := by
  simp [writeKVOutput, h]

theorem writeKVOutput_none_inv (env : Env) (secrets : List SecretType)
    (kvSecrets : KVSecrets) (w : World)
    (h : (writeKVOutput env secrets kvSecrets w).1 = none) :
    ∃ m w1, requestsLoop env kvSecrets secrets ⟨[], []⟩ w = (.ok m, w1) ∧
      writeKVOutput env secrets kvSecrets w =
        dumpJSON env kvSecrets m.secretsToFileMap m.fileToModeMap w1 := by
  rcases hres : requestsLoop env kvSecrets secrets ⟨[], []⟩ w with ⟨res, w1⟩
  cases res with
  | error e =>
    rw [writeKVOutput_of_loop_error _ _ _ _ _ _ hres] at h
    simp at h
  | ok m => exact ⟨m, w1, rfl, writeKVOutput_of_loop_ok _ _ _ _ _ _ hres⟩

theorem fieldsLoop_missing_at (env : Env) (kvSecrets : KVSecrets) (mode : Nat)
    (r : SecretType) (fpre fpost : List SecretField) (fld : SecretField) (w : World)
    (hmiss : r.IsMissingOk = false)
    (habs : fieldValue kvSecrets r.Key fld.Name = Value.null) :
    (fieldsLoop env kvSecrets mode r (fpre ++ fld :: fpost) w).1 ≠ none ∧
    ((fieldsLoop env kvSecrets mode r fpre w).1 = none →
      fieldsLoop env kvSecrets mode r (fpre ++ fld :: fpost) w =
        (some (.missingField fld.Name r.Key), (fieldsLoop env kvSecrets mode r fpre w).2)) := by
  have key : (fieldsLoop env kvSecrets mode r fpre w).1 = none →
      fieldsLoop env kvSecrets mode r (fpre ++ fld :: fpost) w =
        (some (.missingField fld.Name r.Key), (fieldsLoop env kvSecrets mode r fpre w).2) := by
    intro h
    rw [fieldsLoop_append_of_none _ _ _ _ _ _ _ h,
      fieldsLoop_cons_missing _ _ _ _ _ _ _ habs hmiss]
  refine ⟨?_, key⟩
  by_cases h : (fieldsLoop env kvSecrets mode r fpre w).1 = none
  · rw [key h]
    simp
  · rw [fieldsLoop_append_of_some _ _ _ _ _ _ _ h]
    exact h

/-- C3: a field whose value is nil in a request with `IsMissingOk` false makes
`writeKVOutput` return an error.  When everything before the field is
processed without error (the earlier requests, the mode of this request, the
earlier fields of this request), the error names the field and the request key
and the run stops there: the world is the one the earlier fields left, and the
file at the field's `Output` is as it was before the run if no earlier field
with a value has the same `Output`. -/
theorem C3_missing_field (env : Env) (kvSecrets : KVSecrets) (pre post : List SecretType)
    (r : SecretType) (fpre fpost : List SecretField) (fld : SecretField) (w : World)
    (hfields : r.Fields = fpre ++ fld :: fpost) (hmiss : r.IsMissingOk = false)
    (habs : fieldValue kvSecrets r.Key fld.Name = Value.null) :
    (writeKVOutput env (pre ++ r :: post) kvSecrets w).1 ≠ none ∧
    ∀ m1 w1 mode, requestsLoop env kvSecrets pre ⟨[], []⟩ w = (.ok m1, w1) →
      env.stringToFileMode r.Mode = some mode →
      (fieldsLoop env kvSecrets mode r fpre w1).1 = none →
      writeKVOutput env (pre ++ r :: post) kvSecrets w =
        (some (.missingField fld.Name r.Key), (fieldsLoop env kvSecrets mode r fpre w1).2) ∧
      ((∀ r' ∈ pre, ∀ g ∈ r'.Fields, g.Output = fld.Output →
          fieldValue kvSecrets r'.Key g.Name = Value.null) →
        (∀ g ∈ fpre, g.Output = fld.Output →
          fieldValue kvSecrets r.Key g.Name = Value.null) →
        (fieldsLoop env kvSecrets mode r fpre w1).2.files fld.Output = w.files fld.Output) := by
  constructor
  · intro hnone
    obtain ⟨m, w1, hloop, -⟩ := writeKVOutput_none_inv _ _ _ _ hnone
    obtain ⟨m1, wa, -, hb⟩ := requestsLoop_ok_split _ _ _ _ _ _ _ _ hloop
    obtain ⟨mode, -, hf, -⟩ := requestsLoop_cons_ok_inv _ _ _ _ _ _ _ _ hb
    rw [hfields] at hf
    exact (fieldsLoop_missing_at env kvSecrets mode r fpre fpost fld wa hmiss habs).1 hf
  · intro m1 w1 mode hpre hmode hf
    have hfl := (fieldsLoop_missing_at env kvSecrets mode r fpre fpost fld w1 hmiss habs).2 hf
    rw [← hfields] at hfl
    constructor
    · apply writeKVOutput_of_loop_error
      rw [requestsLoop_append_ok _ _ _ _ _ _ _ _ hpre,
        requestsLoop_cons_err env kvSecrets r post m1 w1 mode
          (.missingField fld.Name r.Key) hmode (by rw [hfl]), hfl]
    · intro h1 h2
      rw [fieldsLoop_frame _ _ _ _ _ _ _ h2]
      have := requestsLoop_frame env kvSecrets pre ⟨[], []⟩ w fld.Output h1
      rw [hpre] at this
      exact this

/-- After `reqApp`, the request `reqMissing` fails at `user`, its first field that is not fetched, and `/tmp/user` is left untouched. -/
theorem C3_witness :
    reqMissing.Fields = [⟨"password", "/tmp/pw"⟩] ++ ⟨"user", "/tmp/user"⟩ ::
      [⟨"token", "/tmp/token"⟩] ∧
    reqMissing.IsMissingOk = false ∧
    fieldValue kvSample reqMissing.Key "user" = Value.null ∧
    (writeKVOutput env0 ([reqApp] ++ reqMissing :: []) kvSample world0).1 ≠ none ∧
    writeKVOutput env0 ([reqApp] ++ reqMissing :: []) kvSample world0 =
      (some (.missingField "user" "app/secret"),
        (fieldsLoop env0 kvSample 384 reqMissing [⟨"password", "/tmp/pw"⟩]
          (requestsLoop env0 kvSample [reqApp] ⟨[], []⟩ world0).2).2) ∧
    (fieldsLoop env0 kvSample 384 reqMissing [⟨"password", "/tmp/pw"⟩]
      (requestsLoop env0 kvSample [reqApp] ⟨[], []⟩ world0).2).2.files "/tmp/user" =
        world0.files "/tmp/user" :=
  have h := C3_missing_field env0 kvSample [reqApp] [] reqMissing [⟨"password", "/tmp/pw"⟩]
    [⟨"token", "/tmp/token"⟩] ⟨"user", "/tmp/user"⟩ world0 rfl rfl rfl
  have h2 := h.2 ⟨[("/tmp/all.json", [reqApp])], [("/tmp/all.json", 384)]⟩
    (requestsLoop env0 kvSample [reqApp] ⟨[], []⟩ world0).2 384 rfl rfl rfl
  ⟨rfl, rfl, rfl, h.1, h2.1, h2.2 (by decide) (by decide)⟩

/-- C3 as stated fails: the request `reqMissing` has `IsMissingOk` false and
two fields, `user` and `token`, that are not in the fetched secret; the error
`writeKVOutput` returns names `user`, the first of them, and so does not name
`token`. -/
theorem C3_counterexample :
    reqMissing.IsMissingOk = false ∧
    (⟨"token", "/tmp/token"⟩ : SecretField) ∈ reqMissing.Fields ∧
    fieldValue kvSample reqMissing.Key "token" = Value.null ∧
    (writeKVOutput env0 [reqMissing] kvSample world0).1 =
      some (.missingField "user" "app/secret") ∧
    (writeKVOutput env0 [reqMissing] kvSample world0).1 ≠
      some (.missingField "token" reqMissing.Key) := by
  refine ⟨rfl, by decide, rfl, rfl, by decide⟩

/-- C4: a request whose `Mode` fails to parse makes `writeKVOutput` return an
error.  When the requests before it are processed without error, the error
carries the request's `Mode` and `Key` and the run stops there, before any
file of this or a later request and before any JSON file: the world is the one
the earlier requests left, in which a path is as it was before the run unless
an earlier request has a field with a value and that `Output`.  When the
request is the first of the list nothing has been done at all. -/
theorem C4_bad_mode (env : Env) (kvSecrets : KVSecrets) (pre post : List SecretType)
    (r : SecretType) (w : World) (hbad : env.stringToFileMode r.Mode = none) :
    (writeKVOutput env (pre ++ r :: post) kvSecrets w).1 ≠ none ∧
    (∀ m1 w1, requestsLoop env kvSecrets pre ⟨[], []⟩ w = (.ok m1, w1) →
      writeKVOutput env (pre ++ r :: post) kvSecrets w =
        (some (.parseMode r.Mode r.Key), w1) ∧
      ∀ p, (∀ r' ∈ pre, ∀ g ∈ r'.Fields, g.Output = p →
          fieldValue kvSecrets r'.Key g.Name = Value.null) → w1.files p = w.files p) ∧
    (pre = [] → writeKVOutput env (pre ++ r :: post) kvSecrets w =
        (some (.parseMode r.Mode r.Key), w)) := by
  have h2 : ∀ m1 w1, requestsLoop env kvSecrets pre ⟨[], []⟩ w = (.ok m1, w1) →
      writeKVOutput env (pre ++ r :: post) kvSecrets w =
        (some (.parseMode r.Mode r.Key), w1) := by
    intro m1 w1 hpre
    apply writeKVOutput_of_loop_error
    rw [requestsLoop_append_ok _ _ _ _ _ _ _ _ hpre, requestsLoop_cons_bad _ _ _ _ _ _ hbad]
  refine ⟨?_, ?_, ?_⟩
  · intro hnone
    obtain ⟨m, w1, hloop, -⟩ := writeKVOutput_none_inv _ _ _ _ hnone
    obtain ⟨m1, wa, -, hb⟩ := requestsLoop_ok_split _ _ _ _ _ _ _ _ hloop
    obtain ⟨mode, hmode, -, -⟩ := requestsLoop_cons_ok_inv _ _ _ _ _ _ _ _ hb
    rw [hbad] at hmode
    cases hmode
  · intro m1 w1 hpre
    refine ⟨h2 m1 w1 hpre, ?_⟩
    intro p hp
    have := requestsLoop_frame env kvSecrets pre ⟨[], []⟩ w p hp
    rw [hpre] at this
    exact this
  · intro hnil
    subst hnil
    exact h2 ⟨[], []⟩ w rfl

/-- The request `reqBadMode` after `reqApp`: the error carries its mode and key, and none of its files is touched. -/
theorem C4_witness :
    env0.stringToFileMode reqBadMode.Mode = none ∧
    (writeKVOutput env0 ([reqApp] ++ reqBadMode :: [reqDb]) kvSample world0).1 ≠ none ∧
    writeKVOutput env0 ([reqApp] ++ reqBadMode :: [reqDb]) kvSample world0 =
      (some (.parseMode "rw-------" "db"),
        (requestsLoop env0 kvSample [reqApp] ⟨[], []⟩ world0).2) ∧
    (requestsLoop env0 kvSample [reqApp] ⟨[], []⟩ world0).2.files "/tmp/dbuser" =
      world0.files "/tmp/dbuser" ∧
    (requestsLoop env0 kvSample [reqApp] ⟨[], []⟩ world0).2.files "/tmp/db.json" =
      world0.files "/tmp/db.json" :=
  have h := C4_bad_mode env0 kvSample [reqApp] [reqDb] reqBadMode world0 rfl
  have h2 := h.2.1 ⟨[("/tmp/all.json", [reqApp])], [("/tmp/all.json", 384)]⟩
    (requestsLoop env0 kvSample [reqApp] ⟨[], []⟩ world0).2 rfl
  ⟨rfl, h.1, h2.1, h2.2 "/tmp/dbuser" (by decide), h2.2 "/tmp/db.json" (by decide)⟩

/-- C4 as stated fails: with a first request that is fine and a second one
whose mode does not parse, `writeKVOutput` returns the error of the second
request after it has created the field file of the first: the run is partially
applied. -/
theorem C4_counterexample :
    env0.stringToFileMode reqBadMode.Mode = none ∧
    (writeKVOutput env0 [reqApp, reqBadMode] kvSample world0).1 =
      some (.parseMode "rw-------" "db") ∧
    world0.files "/tmp/pw" = none ∧
    (writeKVOutput env0 [reqApp, reqBadMode] kvSample world0).2.files "/tmp/pw" =
      some ⟨"s3cr3t", 384⟩ := by
  refine ⟨rfl, rfl, rfl, rfl⟩

theorem keys_of_maps_are_outputs (env : Env) (secrets : List SecretType) (m : Maps)
    (hinv : MapsInv env secrets m) (f : String) (hf : f ∈ Assoc.keys m.secretsToFileMap) :
    f ≠ "" ∧ ∃ r ∈ secrets, r.Output = f := by
  obtain ⟨e, he, rfl⟩ := List.mem_map.1 hf
  obtain ⟨h1, -, h3⟩ := mapsInv_mem env secrets m hinv e he
  refine ⟨h1, ?_⟩
  obtain ⟨r, hr⟩ := List.exists_mem_of_ne_nil _ h3
  simp only [group, List.mem_filter, decide_eq_true_eq] at hr
  exact ⟨r, hr.1, hr.2⟩

/-- C1: when `writeKVOutput` returns without error, the file at the `Output` of
a field whose value is not nil holds exactly what `fmt.Fprint` prints for the
value, provided that no later field with a value (of the same request or of a
later one) has the same `Output` and no request names that path as its JSON
output. -/
theorem C1_field_file_content (env : Env) (kvSecrets : KVSecrets) (pre post : List SecretType)
    (r : SecretType) (fpre fpost : List SecretField) (fld : SecretField) (w w' : World)
    (hfields : r.Fields = fpre ++ fld :: fpost)
    (hval : fieldValue kvSecrets r.Key fld.Name ≠ Value.null)
    (hrun : writeKVOutput env (pre ++ r :: post) kvSecrets w = (none, w'))
    (hlater : ∀ g ∈ fpost, g.Output = fld.Output →
      fieldValue kvSecrets r.Key g.Name = Value.null)
    (hpost : ∀ r' ∈ post, ∀ g ∈ r'.Fields, g.Output = fld.Output →
      fieldValue kvSecrets r'.Key g.Name = Value.null)
    (hjson : ∀ r' ∈ pre ++ r :: post, r'.Output = "" ∨ r'.Output ≠ fld.Output) :
    (w'.files fld.Output).map File.content =
      some (fprint (fieldValue kvSecrets r.Key fld.Name)) := by
  have hnone : (writeKVOutput env (pre ++ r :: post) kvSecrets w).1 = none := by rw [hrun]
  obtain ⟨m, w1, hloop, hdump⟩ := writeKVOutput_none_inv _ _ _ _ hnone
  have hinv : MapsInv env (pre ++ r :: post) m := by
    have := mapsInv_requestsLoop env kvSecrets [] _ _ m w w1 (mapsInv_nil env) hloop
    simpa using this
  have hw' : w' = (dumpJSON env kvSecrets m.secretsToFileMap m.fileToModeMap w1).2 := by
    rw [← hdump, hrun]
  have hnotkey : fld.Output ∉ Assoc.keys (env.rangeFiles m.secretsToFileMap) := by
    intro hk
    have hk' := ((env.rangeFiles_perm m.secretsToFileMap).map Prod.fst).mem_iff.1 hk
    obtain ⟨hne, r', hr', hout⟩ := keys_of_maps_are_outputs env _ m hinv _ hk'
    rcases hjson r' hr' with h | h
    · exact hne (hout ▸ h)
    · exact h hout
  rw [hw', dumpJSON, dumpLoop_frame _ _ _ _ _ _ hnotkey]
  obtain ⟨m1, wa, -, hb⟩ := requestsLoop_ok_split _ _ _ _ _ _ _ _ hloop
  obtain ⟨mode, -, hf, hrest⟩ := requestsLoop_cons_ok_inv _ _ _ _ _ _ _ _ hb
  have hw1 := requestsLoop_frame env kvSecrets post (record r mode m1)
    (fieldsLoop env kvSecrets mode r r.Fields wa).2 fld.Output hpost
  rw [hrest] at hw1
  simp only at hw1
  rw [hw1]
  rw [hfields] at hf ⊢
  have hpre : (fieldsLoop env kvSecrets mode r fpre wa).1 = none := by
    by_contra hc
    rw [fieldsLoop_append_of_some _ _ _ _ _ _ _ hc] at hf
    exact hc hf
  rw [fieldsLoop_append_of_none _ _ _ _ _ _ _ hpre,
    fieldsLoop_cons_present _ _ _ _ _ _ _ hval] at hf ⊢
  by_cases hwf : (writeField env mode fld (fieldValue kvSecrets r.Key fld.Name)
      (fieldsLoop env kvSecrets mode r fpre wa).2).1 = none
  · simp only [hwf, if_true]
    rw [fieldsLoop_frame _ _ _ _ _ _ _ hlater]
    exact writeField_content _ _ _ _ _ hwf
  · simp only [hwf, if_false] at hf

/-- The scenario of the specification: the request `reqApp` leaves `/tmp/pw` holding `s3cr3t`. -/
theorem C1_witness :
    reqApp.Fields = [] ++ ⟨"password", "/tmp/pw"⟩ :: [] ∧
    fieldValue kvSample reqApp.Key "password" = Value.str "s3cr3t" ∧
    (writeKVOutput env0 ([] ++ reqApp :: []) kvSample world0).1 = none ∧
    ((writeKVOutput env0 ([] ++ reqApp :: []) kvSample world0).2.files "/tmp/pw").map
      File.content = some "s3cr3t" :=
  ⟨rfl, rfl, rfl,
   C1_field_file_content env0 kvSample [] [] reqApp [] [] ⟨"password", "/tmp/pw"⟩ world0
     (writeKVOutput env0 ([] ++ reqApp :: []) kvSample world0).2 rfl (by decide) rfl
     (by decide) (by decide) (by decide)⟩

/-- C1 as stated fails: the request `reqTwoFields` writes its fields `first`
(value "1") and `second` (value "2") to the same path; `writeKVOutput` returns
without error and the file holds "2", not the value of `first`. -/
theorem C1_counterexample :
    (⟨"first", "/tmp/x"⟩ : SecretField) ∈ reqTwoFields.Fields ∧
    fieldValue kvPair reqTwoFields.Key "first" = Value.str "1" ∧
    (writeKVOutput env0 [reqTwoFields] kvPair world0).1 = none ∧
    (writeKVOutput env0 [reqTwoFields] kvPair world0).2.files "/tmp/x" = some ⟨"2", 384⟩ ∧
    ((writeKVOutput env0 [reqTwoFields] kvPair world0).2.files "/tmp/x").map File.content ≠
      some (fprint (fieldValue kvPair reqTwoFields.Key "first")) := by
  refine ⟨by decide, rfl, rfl, rfl, by decide⟩

theorem fieldsLoop_none_of (env : Env) (kvSecrets : KVSecrets) (mode : Nat)
    (r : SecretType) (fields : List SecretField) (w : World)
    (hopen : ∀ p, env.openOk p = true) (hwrite : ∀ p, env.writeOk p = true)
    (habs : ∀ g ∈ fields, fieldValue kvSecrets r.Key g.Name = Value.null →
      r.IsMissingOk = true) :
    (fieldsLoop env kvSecrets mode r fields w).1 = none := by
  induction fields generalizing w with
  | nil => simp [fieldsLoop]
  | cons f rest ih =>
    have hrest : ∀ g ∈ rest, fieldValue kvSecrets r.Key g.Name = Value.null →
        r.IsMissingOk = true := fun g hg => habs g (List.mem_cons_of_mem _ hg)
    by_cases hnull : fieldValue kvSecrets r.Key f.Name = Value.null
    · rw [fieldsLoop_cons_absent _ _ _ _ _ _ _ hnull (habs f (List.mem_cons_self _ _) hnull)]
      exact ih _ hrest
    · have hwf := (writeField_none_iff env mode f (fieldValue kvSecrets r.Key f.Name) w).2
        ⟨hopen _, hwrite _⟩
      rw [fieldsLoop_cons_present _ _ _ _ _ _ _ hnull]
      simp only [hwf, if_true]
      exact ih _ hrest

theorem requestsLoop_ok_of (env : Env) (kvSecrets : KVSecrets) (secrets : List SecretType)
    (m : Maps) (w : World)
    (hmodes : ∀ r ∈ secrets, ∃ mode, env.stringToFileMode r.Mode = some mode)
    (hopen : ∀ p, env.openOk p = true) (hwrite : ∀ p, env.writeOk p = true)
    (habs : ∀ r ∈ secrets, ∀ g ∈ r.Fields,
      fieldValue kvSecrets r.Key g.Name = Value.null → r.IsMissingOk = true) :
    ∃ m' w', requestsLoop env kvSecrets secrets m w = (.ok m', w') := by
  induction secrets generalizing m w with
  | nil => exact ⟨m, w, rfl⟩
  | cons r rest ih =>
    obtain ⟨mode, hmode⟩ := hmodes r (List.mem_cons_self _ _)
    have hf := fieldsLoop_none_of env kvSecrets mode r r.Fields w hopen hwrite
      (habs r (List.mem_cons_self _ _))
    rw [requestsLoop_cons_ok _ _ _ _ _ _ _ hmode hf]
    exact ih _ _ (fun r' hr' => hmodes r' (List.mem_cons_of_mem _ hr'))
      (fun r' hr' => habs r' (List.mem_cons_of_mem _ hr'))

/-- C9: a field whose value is nil in a request with `IsMissingOk` true raises
no error and writes nothing: the loop goes on with the next field in a world
that differs only by the warning.  So a run in which every mode parses, every
open and write succeeds, no two contributions to a JSON file collide and every
field whose value is nil belongs to a request with `IsMissingOk` true returns
without error. -/
theorem C9_missing_ok (env : Env) (kvSecrets : KVSecrets) (secrets : List SecretType)
    (w : World) (hwf : WellFormed kvSecrets)
    (hmodes : ∀ r ∈ secrets, ∃ mode, env.stringToFileMode r.Mode = some mode)
    (hopen : ∀ p, env.openOk p = true) (hwrite : ∀ p, env.writeOk p = true)
    (hcollide : ∀ r ∈ secrets, r.Output ≠ "" → ¬ Collide (group secrets r.Output) kvSecrets)
    (habs : ∀ r ∈ secrets, ∀ g ∈ r.Fields,
      fieldValue kvSecrets r.Key g.Name = Value.null → r.IsMissingOk = true) :
    (∀ r ∈ secrets, ∀ (mode : Nat) (fld : SecretField) (rest : List SecretField) (w0 : World),
      r.IsMissingOk = true → fieldValue kvSecrets r.Key fld.Name = Value.null →
      fieldsLoop env kvSecrets mode r (fld :: rest) w0 =
        fieldsLoop env kvSecrets mode r rest
          { w0 with warnings := w0.warnings ++ [(fld.Name, r.Key, fld.Output)] }) ∧
    (writeKVOutput env secrets kvSecrets w).1 = none := by
  constructor
  · intro r _ mode fld rest w0 hok hnull
    exact fieldsLoop_cons_absent env kvSecrets mode r fld rest w0 hnull hok
  · obtain ⟨m, w1, hloop⟩ := requestsLoop_ok_of env kvSecrets secrets ⟨[], []⟩ w hmodes
      hopen hwrite habs
    have hinv : MapsInv env secrets m := by
      have := mapsInv_requestsLoop env kvSecrets [] _ _ m w w1 (mapsInv_nil env) hloop
      simpa using this
    rw [writeKVOutput_of_loop_ok _ _ _ _ _ _ hloop, dumpJSON]
    apply (dumpLoop_none_iff _ _ _ _ _).2
    intro e he
    have he' := (env.rangeFiles_perm m.secretsToFileMap).mem_iff.1 he
    obtain ⟨h1, h2, h3⟩ := mapsInv_mem env secrets m hinv e he'
    obtain ⟨r, hr⟩ := List.exists_mem_of_ne_nil _ h3
    simp only [group, List.mem_filter, decide_eq_true_eq] at hr
    refine ⟨hopen _, ?_, fun _ => hwrite _⟩
    rw [h2, nodup_allContributions_iff _ _ hwf, ← hr.2]
    exact hcollide r hr.1 (hr.2 ▸ h1)

/-- The request `reqMissingOk` lacks `user` and `token`; the run, with `reqApp` after it, returns without error. -/
theorem C9_witness :
    WellFormed kvSample ∧
    (∀ r ∈ [reqMissingOk, reqApp], ∃ mode, env1.stringToFileMode r.Mode = some mode) ∧
    (∀ p, env1.openOk p = true) ∧ (∀ p, env1.writeOk p = true) ∧
    (∀ r ∈ [reqMissingOk, reqApp], r.Output ≠ "" →
      ¬ Collide (group [reqMissingOk, reqApp] r.Output) kvSample) ∧
    (∀ r ∈ [reqMissingOk, reqApp], ∀ g ∈ r.Fields,
      fieldValue kvSample r.Key g.Name = Value.null → r.IsMissingOk = true) ∧
    fieldValue kvSample reqMissingOk.Key "user" = Value.null ∧
    (∀ (rest : List SecretField) (w0 : World),
      fieldsLoop env1 kvSample 384 reqMissingOk (⟨"user", "/tmp/user"⟩ :: rest) w0 =
        fieldsLoop env1 kvSample 384 reqMissingOk rest
          { w0 with warnings := w0.warnings ++ [("user", "app/secret", "/tmp/user")] }) ∧
    (writeKVOutput env1 [reqMissingOk, reqApp] kvSample world0).1 = none :=
  have hwf : WellFormed kvSample := wellFormed_of_forall kvSample (by decide)
  have hmodes : ∀ r ∈ [reqMissingOk, reqApp], ∃ mode, env1.stringToFileMode r.Mode = some mode := by
    intro r hr
    simp only [List.mem_cons, List.mem_singleton, List.not_mem_nil, or_false] at hr
    rcases hr with rfl | rfl
    · exact ⟨384, rfl⟩
    · exact ⟨384, rfl⟩
  have hcollide : ∀ r ∈ [reqMissingOk, reqApp], r.Output ≠ "" →
      ¬ Collide (group [reqMissingOk, reqApp] r.Output) kvSample := by
    intro r hr hout
    rw [← nodup_allContributions_iff _ _ hwf]
    revert r
    decide
  have habs : ∀ r ∈ [reqMissingOk, reqApp], ∀ g ∈ r.Fields,
      fieldValue kvSample r.Key g.Name = Value.null → r.IsMissingOk = true := by decide
  have h := C9_missing_ok env1 kvSample [reqMissingOk, reqApp] world0 hwf hmodes
    (fun _ => rfl) (fun _ => rfl) hcollide habs
  ⟨hwf, hmodes, fun _ => rfl, fun _ => rfl, hcollide, habs, rfl,
    fun rest w0 => h.1 reqMissingOk (by decide) 384 ⟨"user", "/tmp/user"⟩ rest w0 rfl rfl, h.2⟩

/-! ## The outcome does not depend on the order of the `range` statements -/

theorem writeField_env (env env' : Env) (hopen : env.openOk = env'.openOk)
    (hwrite : env.writeOk = env'.writeOk) (mode : Nat) (field : SecretField) (value : Value)
    (w : World) : writeField env mode field value w = writeField env' mode field value w := by
  simp only [writeField, hopen, hwrite]

theorem fieldsLoop_env (env env' : Env) (hopen : env.openOk = env'.openOk)
    (hwrite : env.writeOk = env'.writeOk) (kvSecrets : KVSecrets) (mode : Nat)
    (r : SecretType) (fields : List SecretField) (w : World) :
    fieldsLoop env kvSecrets mode r fields w = fieldsLoop env' kvSecrets mode r fields w := by
  induction fields generalizing w with
  | nil => rfl
  | cons f rest ih =>
    simp only [fieldsLoop, writeField_env env env' hopen hwrite, ih]

theorem requestsLoop_env (env env' : Env) (hmode : env.stringToFileMode = env'.stringToFileMode)
    (hopen : env.openOk = env'.openOk) (hwrite : env.writeOk = env'.writeOk)
    (kvSecrets : KVSecrets) (secrets : List SecretType) (m : Maps) (w : World) :
    requestsLoop env kvSecrets secrets m w = requestsLoop env' kvSecrets secrets m w := by
  induction secrets generalizing m w with
  | nil => rfl
  | cons r rest ih =>
    simp only [requestsLoop, hmode, fieldsLoop_env env env' hopen hwrite, ih]

theorem dumpStep_other (kvSecrets : KVSecrets) (ftm : List (String × Nat))
    (files : String → Option File) (e : String × List SecretType) (p : String)
    (hp : p ≠ e.1) : dumpStep kvSecrets ftm files e p = files p := by
  by_cases h : allContributions e.2 kvSecrets = []
  · simp [dumpStep, h, openTrunc, hp]
  · simp [dumpStep, h, openTrunc, writeContent, hp]

theorem dumpStep_at (kvSecrets : KVSecrets) (ftm : List (String × Nat))
    (files files' : String → Option File) (e : String × List SecretType)
    (h : files e.1 = files' e.1) :
    dumpStep kvSecrets ftm files e e.1 = dumpStep kvSecrets ftm files' e e.1 := by
  by_cases hc : allContributions e.2 kvSecrets = []
  · simp [dumpStep, hc, openTrunc, h]
  · simp [dumpStep, hc, openTrunc, writeContent, h]

theorem dumpStep_comm (kvSecrets : KVSecrets) (ftm : List (String × Nat))
    (files : String → Option File) (x y : String × List SecretType) (hne : x.1 ≠ y.1) :
    dumpStep kvSecrets ftm (dumpStep kvSecrets ftm files x) y =
      dumpStep kvSecrets ftm (dumpStep kvSecrets ftm files y) x := by
  funext p
  by_cases hx : p = x.1
  · subst hx
    rw [dumpStep_other _ _ _ y _ hne]
    exact dumpStep_at _ _ _ _ x (dumpStep_other _ _ _ y _ hne).symm
  · by_cases hy : p = y.1
    · subst hy
      rw [dumpStep_other _ _ _ x _ hx]
      exact dumpStep_at _ _ _ _ y (dumpStep_other _ _ _ x _ hx)
    · rw [dumpStep_other _ _ _ y _ hy, dumpStep_other _ _ _ x _ hx,
        dumpStep_other _ _ _ x _ hx, dumpStep_other _ _ _ y _ hy]

theorem entry_eq_of_key_eq {β : Type} {l : List (String × β)} (hnd : (Assoc.keys l).Nodup)
    {x y : String × β} (hx : x ∈ l) (hy : y ∈ l) (h : x.1 = y.1) : x = y := by
  have h1 := Assoc.get?_of_mem hnd (show (x.1, x.2) ∈ l from hx)
  have h2 := Assoc.get?_of_mem hnd (show (y.1, y.2) ∈ l from hy)
  rw [h, h2] at h1
  exact Prod.ext h (Option.some.inj h1).symm

theorem foldl_dumpStep_perm (kvSecrets : KVSecrets) (ftm : List (String × Nat))
    (l l' : List (String × List SecretType)) (hp : l.Perm l') (hnd : (Assoc.keys l).Nodup)
    (files : String → Option File) :
    l.foldl (dumpStep kvSecrets ftm) files = l'.foldl (dumpStep kvSecrets ftm) files := by
  apply hp.foldl_eq'
  intro x hx y hy z
  by_cases h : x.1 = y.1
  · rw [entry_eq_of_key_eq hnd hx hy h]
  · exact dumpStep_comm kvSecrets ftm z x y h

theorem dumpGood_env (env env' : Env) (hopen : env.openOk = env'.openOk)
    (hwrite : env.writeOk = env'.writeOk) (kvSecrets : KVSecrets)
    (e : String × List SecretType) :
    DumpGood env kvSecrets e ↔ DumpGood env' kvSecrets e := by
  simp only [DumpGood, hopen, hwrite]

theorem dumpJSON_none_env (env env' : Env) (hopen : env.openOk = env'.openOk)
    (hwrite : env.writeOk = env'.writeOk) (kvSecrets : KVSecrets)
    (stf : List (String × List SecretType)) (ftm : List (String × Nat)) (w : World)
    (hnd : (Assoc.keys stf).Nodup)
    (h : (dumpJSON env kvSecrets stf ftm w).1 = none) :
    (dumpJSON env' kvSecrets stf ftm w).1 = none ∧
      (dumpJSON env kvSecrets stf ftm w).2.files =
        (dumpJSON env' kvSecrets stf ftm w).2.files := by
  have hperm : (env.rangeFiles stf).Perm (env'.rangeFiles stf) :=
    (env.rangeFiles_perm stf).trans (env'.rangeFiles_perm stf).symm
  have hgood := (dumpLoop_none_iff env kvSecrets ftm _ w).1 h
  have h' : (dumpJSON env' kvSecrets stf ftm w).1 = none := by
    apply (dumpLoop_none_iff env' kvSecrets ftm _ w).2
    intro e he
    exact (dumpGood_env env env' hopen hwrite kvSecrets e).1 (hgood e (hperm.mem_iff.2 he))
  refine ⟨h', ?_⟩
  unfold dumpJSON at h h' ⊢
  rw [dumpLoop_files_of_none _ _ _ _ _ h, dumpLoop_files_of_none _ _ _ _ _ h']
  apply foldl_dumpStep_perm _ _ _ _ hperm
  exact ((env.rangeFiles_perm stf).map Prod.fst).nodup_iff.2 hnd

theorem writeKVOutput_none_env (env env' : Env)
    (hmode : env.stringToFileMode = env'.stringToFileMode)
    (hopen : env.openOk = env'.openOk) (hwrite : env.writeOk = env'.writeOk)
    (secrets : List SecretType) (kvSecrets : KVSecrets) (w : World)
    (h : (writeKVOutput env secrets kvSecrets w).1 = none) :
    (writeKVOutput env' secrets kvSecrets w).1 = none ∧
      (writeKVOutput env secrets kvSecrets w).2.files =
        (writeKVOutput env' secrets kvSecrets w).2.files := by
  obtain ⟨m, w1, hloop, hrun⟩ := writeKVOutput_none_inv _ _ _ _ h
  have hloop' : requestsLoop env' kvSecrets secrets ⟨[], []⟩ w = (.ok m, w1) := by
    rw [← requestsLoop_env env env' hmode hopen hwrite]
    exact hloop
  have hinv : MapsInv env secrets m := by
    have := mapsInv_requestsLoop env kvSecrets [] _ _ m w w1 (mapsInv_nil env) hloop
    simpa using this
  rw [hrun] at h ⊢
  rw [writeKVOutput_of_loop_ok _ _ _ _ _ _ hloop']
  exact dumpJSON_none_env env env' hopen hwrite kvSecrets _ _ w1 hinv.nodup h

/-- C10: two runs of `writeKVOutput` on the same requests, the same fetched
secrets and the same initial files, whatever order the runtime iterates the
maps in, both succeed or both fail; when they succeed they leave the same files
(paths, contents and modes); when the loop over the requests fails, before
`dumpJSON`, they return the same error and leave the same world. -/
theorem C10_order_independent (env env' : Env) (secrets : List SecretType)
    (kvSecrets : KVSecrets) (w : World)
    (hmode : env.stringToFileMode = env'.stringToFileMode)
    (hopen : env.openOk = env'.openOk) (hwrite : env.writeOk = env'.writeOk) :
    ((writeKVOutput env secrets kvSecrets w).1 = none ↔
      (writeKVOutput env' secrets kvSecrets w).1 = none) ∧
    ((writeKVOutput env secrets kvSecrets w).1 = none →
      (writeKVOutput env secrets kvSecrets w).2.files =
        (writeKVOutput env' secrets kvSecrets w).2.files) ∧
    (∀ e w1, requestsLoop env kvSecrets secrets ⟨[], []⟩ w = (.error e, w1) →
      writeKVOutput env secrets kvSecrets w = (some e, w1) ∧
      writeKVOutput env' secrets kvSecrets w = (some e, w1)) := by
  refine ⟨⟨fun h => (writeKVOutput_none_env env env' hmode hopen hwrite _ _ _ h).1,
    fun h => (writeKVOutput_none_env env' env hmode.symm hopen.symm hwrite.symm _ _ _ h).1⟩,
    fun h => (writeKVOutput_none_env env env' hmode hopen hwrite _ _ _ h).2, ?_⟩
  intro e w1 hloop
  refine ⟨writeKVOutput_of_loop_error _ _ _ _ _ _ hloop, ?_⟩
  apply writeKVOutput_of_loop_error
  rw [← requestsLoop_env env env' hmode hopen hwrite]
  exact hloop

/-- A run that succeeds, once visiting the maps in the order of the lists and once in reverse. -/
theorem C10_witness :
    env0.stringToFileMode = env1.stringToFileMode ∧ env0.openOk = env1.openOk ∧
    env0.writeOk = env1.writeOk ∧
    (writeKVOutput env0 [reqApp, reqDb, reqSolo] kvSample world0).1 = none ∧
    (((writeKVOutput env0 [reqApp, reqDb, reqSolo] kvSample world0).1 = none ↔
      (writeKVOutput env1 [reqApp, reqDb, reqSolo] kvSample world0).1 = none) ∧
    ((writeKVOutput env0 [reqApp, reqDb, reqSolo] kvSample world0).1 = none →
      (writeKVOutput env0 [reqApp, reqDb, reqSolo] kvSample world0).2.files =
        (writeKVOutput env1 [reqApp, reqDb, reqSolo] kvSample world0).2.files) ∧
    (∀ e w1, requestsLoop env0 kvSample [reqApp, reqDb, reqSolo] ⟨[], []⟩ world0 =
        (.error e, w1) →
      writeKVOutput env0 [reqApp, reqDb, reqSolo] kvSample world0 = (some e, w1) ∧
      writeKVOutput env1 [reqApp, reqDb, reqSolo] kvSample world0 = (some e, w1))) :=
  ⟨rfl, rfl, rfl, rfl,
   C10_order_independent env0 env1 [reqApp, reqDb, reqSolo] kvSample world0 rfl rfl rfl⟩

/-- C10 as stated fails: with two requests that collide on `password` in
`/tmp/all.json` and a third that alone writes `/tmp/db.json`, both runs start
from the same empty destination and return the same error, but the run that
visits `/tmp/all.json` first leaves no `/tmp/db.json`, while the run that
visits `/tmp/db.json` first leaves it written. -/
theorem C10_counterexample :
    env0.stringToFileMode = env1.stringToFileMode ∧ env0.openOk = env1.openOk ∧
    env0.writeOk = env1.writeOk ∧
    (writeKVOutput env0 [reqApp, reqOther, reqSolo] kvSample world0).1 =
      some (.collect (.dup "password" "/tmp/all.json")) ∧
    (writeKVOutput env1 [reqApp, reqOther, reqSolo] kvSample world0).1 =
      some (.collect (.dup "password" "/tmp/all.json")) ∧
    (writeKVOutput env0 [reqApp, reqOther, reqSolo] kvSample world0).2.files "/tmp/db.json" =
      none ∧
    (writeKVOutput env1 [reqApp, reqOther, reqSolo] kvSample world0).2.files "/tmp/db.json" =
      some ⟨"\x7b\"password\":\"hunter2\",\"user\":\"admin\"\x7d\n", 416⟩ ∧
    (writeKVOutput env0 [reqApp, reqOther, reqSolo] kvSample world0).2.files ≠
      (writeKVOutput env1 [reqApp, reqOther, reqSolo] kvSample world0).2.files := by
  refine ⟨rfl, rfl, rfl, rfl, rfl, rfl, rfl, ?_⟩
  intro h
  have h1 := congrFun h "/tmp/db.json"
  revert h1
  decide

end VaultCtrl
